import Mathlib

/-!
Verification of the SQLite-backed generation task queue
(`src/lib/generation_queue.py`), the client wait helper
(`src/lib/generation_queue_client.py`) and the SSE stream endpoint
(`src/webui/server/routers/tasks.py`).

The embedding models the three tables (`tasks`, `task_events`,
`worker_lease`) as lists of records inside a `QueueDB` state.  Each queue
method becomes a pure state-transforming function.  Timestamps stored as
ISO-8601 TEXT columns are modelled by `Nat` (the strings are produced from a
monotone clock and compare consistently with time under SQLite's binary
collation); the `lease_until` REAL epoch column is modelled by `Rat`.
`AUTOINCREMENT` event ids are modelled by the `next_event_id` counter.
SQL queries with `ORDER BY`/`LIMIT` are modelled by folds that pick the row
the corresponding index scan would return (rowid order breaks ties).
-/

namespace GenQueue

/-- Task status column: `status IN ('queued','running','succeeded','failed')`. -/
inductive Status where
  | queued
  | running
  | succeeded
  | failed
deriving DecidableEq, Repr

/-- A row of the `tasks` table (columns as in `_init_db`).  `payload_json`
and `result_json` stay opaque serialized strings, as the queue itself never
inspects them. -/
structure Task where
  task_id : String
  project_name : String
  task_type : String
  media_type : String
  resource_id : String
  script_file : Option String
  payload_json : String
  status : Status
  result_json : Option String
  error_message : Option String
  source : String
  queued_at : Nat
  started_at : Option Nat
  finished_at : Option Nat
  updated_at : Nat
deriving DecidableEq, Repr

/-- A row of the `task_events` table; `data` is the task snapshot that
`_append_event_conn` serializes into `data_json`. -/
structure TaskEvent where
  id : Nat
  task_id : String
  project_name : String
  event_type : String
  status : Status
  data : Task
  created_at : Nat
deriving DecidableEq, Repr

/-- A row of the `worker_lease` table (`name` is the primary key). -/
structure WorkerLease where
  name : String
  owner_id : String
  lease_until : Rat
  updated_at : Nat
deriving DecidableEq, Repr

/-- The whole SQLite database.  `next_event_id` is the AUTOINCREMENT counter
of `task_events` (the next id to be handed out; ids start at 1). -/
structure QueueDB where
  tasks : List Task
  events : List TaskEvent
  next_event_id : Nat
  leases : List WorkerLease
deriving DecidableEq, Repr

/-- A freshly created database (`_init_db` on a new file). -/
def emptyDB : QueueDB := ⟨[], [], 1, []⟩

/-- Model of `_json_dumps(value or dict())` for an optional already-serialized blob:
a missing value is stored as the serialization of the empty object. -/
def jsonOrEmpty (r : Option String) : String := r.getD "\x7b\x7d"

/-- Python's `msg[:n]` slicing (by code points). -/
def truncateMessage (msg : String) (n : Nat) : String := ⟨msg.data.take n⟩

/-- Model of `max(lo, min(hi, int(v)))` — the limit clamps used throughout the file. -/
def clampNat (lo hi : Nat) (v : Int) : Nat := (max (lo : Int) (min (hi : Int) v)).toNat

/-- The predicate of the partial unique index `idx_tasks_dedupe_active`:
a row conflicts with dedup key `(p, ty, r, COALESCE(sf,''))` iff it has the
same key (with `COALESCE(script_file,'')`) and `status IN ('queued','running')`. -/
def activeKeyMatch (p ty r : String) (sf : Option String) (t : Task) : Bool :=
  decide (t.project_name = p ∧ t.task_type = ty ∧ t.resource_id = r ∧
    t.script_file.getD "" = sf.getD "" ∧ (t.status = .queued ∨ t.status = .running))

/-- One step of the `ORDER BY queued_at DESC LIMIT 1` scan. -/
def pickLatestStep (acc : Option Task) (t : Task) : Option Task :=
  match acc with
  | none => some t
  | some c => if c.queued_at ≤ t.queued_at then some t else some c

/-- Scan for `ORDER BY queued_at DESC LIMIT 1`: pick the row with the largest
`queued_at` (a later row wins ties). -/
def pickLatestQueuedAt (l : List Task) : Option Task :=
  l.foldl pickLatestStep none

/-- The row inserted by `enqueue_task`'s `INSERT INTO tasks ... 'queued'`. -/
def newQueuedTask (tid p ty m r : String) (pj : String) (sf : Option String)
    (src : String) (now : Nat) : Task :=
  { task_id := tid
    project_name := p
    task_type := ty
    media_type := m
    resource_id := r
    script_file := sf
    payload_json := pj
    status := .queued
    result_json := none
    error_message := none
    source := src
    queued_at := now
    started_at := none
    finished_at := none
    updated_at := now }

/-- The dict returned by `enqueue_task`. -/
structure EnqueueResult where
  task_id : String
  status : Status
  deduped : Bool
  existing_task_id : Option String
deriving DecidableEq, Repr

/-- Model of `GenerationQueue.enqueue_task`.  The `INSERT` raises `IntegrityError`
iff the primary key or the partial dedupe index rejects the row; the handler
then looks up the newest active row for the key and returns it with
`deduped=True` (re-raising — the `Except.error` value — if none is found).
On a successful insert the new row and one `queued` event are appended. -/
def enqueue_task (db : QueueDB) (tid p ty m r : String) (pj : String)
    (sf : Option String) (src : String) (now : Nat) :
    QueueDB × Except Unit EnqueueResult :=
  let pkConflict := db.tasks.any (fun t => decide (t.task_id = tid))
  let dupes := db.tasks.filter (activeKeyMatch p ty r sf)
  if pkConflict || !dupes.isEmpty then
    match pickLatestQueuedAt dupes with
    | some existing =>
        (db, .ok ⟨existing.task_id, existing.status, true, some existing.task_id⟩)
    | none => (db, .error ())
  else
    let t := newQueuedTask tid p ty m r pj sf src now
    (⟨db.tasks ++ [t],
      db.events ++ [⟨db.next_event_id, tid, p, "queued", .queued, t, now⟩],
      db.next_event_id + 1, db.leases⟩,
     .ok ⟨tid, .queued, false, none⟩)

/-- One step of the scan for `SELECT * FROM tasks WHERE status='queued' AND media_type=? ORDER BY
queued_at ASC LIMIT 1`: first row (in rowid order) with minimal `queued_at`
among queued rows of the lane. -/
def selectOldestStep (acc : Option Task) (t : Task) : Option Task :=
  match acc with
  | none => some t
  | some c => if t.queued_at < c.queued_at then some t else some c

/-- Query `SELECT ... WHERE status='queued' AND media_type=? ORDER BY queued_at ASC
LIMIT 1` over the rows in rowid order (the earlier row wins ties). -/
def selectOldestQueued (tasks : List Task) (media : String) : Option Task :=
  (tasks.filter (fun t => decide (t.status = .queued ∧ t.media_type = media))).foldl
    selectOldestStep none

/-- The `UPDATE tasks SET status='running', started_at=COALESCE(started_at,?),
updated_at=? WHERE task_id=?` row transformer. -/
def applyClaim (now : Nat) (t : Task) : Task :=
  { t with
    status := .running
    started_at := some (t.started_at.getD now)
    updated_at := now }

/-- Model of `GenerationQueue.claim_next_task`. -/
def claim_next_task (db : QueueDB) (media : String) (now : Nat) :
    QueueDB × Option Task :=
  match selectOldestQueued db.tasks media with
  | none => (db, none)
  | some sel =>
    let tasks' := db.tasks.map (fun t =>
      if t.task_id = sel.task_id then applyClaim now t else t)
    match tasks'.find? (fun t => decide (t.task_id = sel.task_id)) with
    | none => (⟨tasks', db.events, db.next_event_id, db.leases⟩, none)
    | some running_task =>
      (⟨tasks',
        db.events ++ [⟨db.next_event_id, sel.task_id, running_task.project_name,
          "running", .running, running_task, now⟩],
        db.next_event_id + 1, db.leases⟩,
       some running_task)

/-- The `UPDATE` row transformer of `requeue_running_tasks`. -/
def resetTask (now : Nat) (t : Task) : Task :=
  { t with
    status := .queued
    started_at := none
    finished_at := none
    updated_at := now
    result_json := none
    error_message := none }

/-- One iteration of the `requeue_running_tasks` loop: `UPDATE ... WHERE
task_id=? AND status='running'`, re-fetch the row, and append a `requeued`
event (counting it) only if the row is now queued. -/
def requeueOne (now : Nat) (acc : QueueDB × Nat) (tid : String) : QueueDB × Nat :=
  let db := acc.1
  let tasks' := db.tasks.map (fun t =>
    if t.task_id = tid ∧ t.status = .running then resetTask now t else t)
  match tasks'.find? (fun t => decide (t.task_id = tid)) with
  | none => (⟨tasks', db.events, db.next_event_id, db.leases⟩, acc.2)
  | some t =>
    if t.status = .queued then
      (⟨tasks',
        db.events ++ [⟨db.next_event_id, tid, t.project_name, "requeued",
          .queued, t, now⟩],
        db.next_event_id + 1, db.leases⟩, acc.2 + 1)
    else (⟨tasks', db.events, db.next_event_id, db.leases⟩, acc.2)

/-- The rows `SELECT task_id FROM tasks WHERE status='running'` sees. -/
def runningTasks (db : QueueDB) : List Task :=
  db.tasks.filter (fun t => decide (t.status = .running))

/-- Model of `GenerationQueue.requeue_running_tasks`: clamp the limit to `[1, 5000]`,
select up to that many running rows ordered by `updated_at` ascending, and
reset each back to queued, appending a `requeued` event per reset row. -/
def requeue_running_tasks (db : QueueDB) (limit : Int) (now : Nat) :
    QueueDB × Nat :=
  let lim := clampNat 1 5000 limit
  let selected := ((List.insertionSort (fun a b => a.updated_at ≤ b.updated_at)
      (runningTasks db)).take lim).map (fun t => t.task_id)
  selected.foldl (requeueOne now) (db, 0)

/-- The `UPDATE` row transformer of `mark_task_succeeded`. -/
def applySucceeded (result : Option String) (now : Nat) (t : Task) : Task :=
  { t with
    status := .succeeded
    result_json := some (jsonOrEmpty result)
    error_message := none
    finished_at := some now
    updated_at := now }

/-- The `UPDATE` row transformer of `mark_task_failed` (`error_message[:2000]`;
note that `result_json` is left untouched). -/
def applyFailed (msg : String) (now : Nat) (t : Task) : Task :=
  { t with
    status := .failed
    error_message := some (truncateMessage msg 2000)
    finished_at := some now
    updated_at := now }

/-- Model of `GenerationQueue.mark_task_succeeded`. -/
def mark_task_succeeded (db : QueueDB) (tid : String) (result : Option String)
    (now : Nat) : QueueDB × Option Task :=
  if db.tasks.any (fun t => decide (t.task_id = tid)) then
    let tasks' := db.tasks.map (fun t =>
      if t.task_id = tid then applySucceeded result now t else t)
    match tasks'.find? (fun t => decide (t.task_id = tid)) with
    | none => (⟨tasks', db.events, db.next_event_id, db.leases⟩, none)
    | some done =>
      (⟨tasks',
        db.events ++ [⟨db.next_event_id, tid, done.project_name, "succeeded",
          .succeeded, done, now⟩],
        db.next_event_id + 1, db.leases⟩, some done)
  else (db, none)

/-- Model of `GenerationQueue.mark_task_failed`. -/
def mark_task_failed (db : QueueDB) (tid : String) (msg : String) (now : Nat) :
    QueueDB × Option Task :=
  if db.tasks.any (fun t => decide (t.task_id = tid)) then
    let tasks' := db.tasks.map (fun t =>
      if t.task_id = tid then applyFailed msg now t else t)
    match tasks'.find? (fun t => decide (t.task_id = tid)) with
    | none => (⟨tasks', db.events, db.next_event_id, db.leases⟩, none)
    | some failed =>
      (⟨tasks',
        db.events ++ [⟨db.next_event_id, tid, failed.project_name, "failed",
          .failed, failed, now⟩],
        db.next_event_id + 1, db.leases⟩, some failed)
  else (db, none)

/-- The `WHERE id > ? [AND project_name = ?]` filter of `get_events_since`. -/
def eventSinceMatch (last : Nat) (proj : Option String) (e : TaskEvent) : Bool :=
  decide (last < e.id) &&
    (match proj with
     | none => true
     | some p => decide (e.project_name = p))

/-- Model of `GenerationQueue.get_events_since`: limit clamped to `[1, 1000]`, events
with `id > last_event_id` (optionally one project) in id order.  Events are
appended with strictly increasing ids, so list order is `ORDER BY id ASC`. -/
def get_events_since (db : QueueDB) (last : Nat) (proj : Option String)
    (limit : Int) : List TaskEvent :=
  (db.events.filter (eventSinceMatch last proj)).take (clampNat 1 1000 limit)

/-- Model of `GenerationQueue.get_latest_event_id`: `MAX(id)` over (optionally one
project's) events, `0` when there are none. -/
def get_latest_event_id (db : QueueDB) (proj : Option String) : Nat :=
  (db.events.filter (fun e =>
    match proj with
    | none => true
    | some p => decide (e.project_name = p))).foldl (fun acc e => max acc e.id) 0

/-- Model of Python's `max` on floats (an explicit conditional, so that it
evaluates). -/
@[reducible] def ratMax (a b : Rat) : Rat := if a ≤ b then b else a

/-- Model of `GenerationQueue.acquire_or_renew_worker_lease`: the stored expiry is
`now_epoch + max(1.0, ttl_seconds)`. -/
def acquire_or_renew_worker_lease (db : QueueDB) (name owner : String)
    (ttl now : Rat) (wall : Nat) : QueueDB × Bool :=
  let lease_until := now + ratMax 1 ttl
  match db.leases.find? (fun l => decide (l.name = name)) with
  | none =>
    (⟨db.tasks, db.events, db.next_event_id,
      db.leases ++ [⟨name, owner, lease_until, wall⟩]⟩, true)
  | some row =>
    if row.owner_id = owner ∨ row.lease_until ≤ now then
      (⟨db.tasks, db.events, db.next_event_id,
        db.leases.map (fun l =>
          if l.name = name then ⟨name, owner, lease_until, wall⟩ else l)⟩, true)
    else (db, false)

/-- Model of `GenerationQueue.is_worker_online`: a non-expired lease row exists. -/
def is_worker_online (db : QueueDB) (name : String) (now : Rat) : Bool :=
  match db.leases.find? (fun l => decide (l.name = name)) with
  | none => false
  | some row => decide (now < row.lease_until)

/-- The `task_id` column is the primary key: all ids are distinct. -/
def uniqueTaskIds (l : List Task) : Prop := (l.map (fun t => t.task_id)).Nodup

/-- The spec's Task invariant on blobs: `result` is set only on success and
`error_message` only on failure. -/
def resultOnlyOnSuccess (db : QueueDB) : Prop :=
  ∀ t ∈ db.tasks, (t.result_json ≠ none → t.status = .succeeded) ∧
    (t.error_message ≠ none → t.status = .failed)

/-- The weakened blob invariant that the code actually maintains:
`mark_task_failed` does not clear `result_json`, so a stored result may also
survive on a `failed` row; `error_message` is still set only on failure. -/
def resultOnlyOnTerminal (db : QueueDB) : Prop :=
  ∀ t ∈ db.tasks, (t.result_json ≠ none → t.status = .succeeded ∨ t.status = .failed) ∧
    (t.error_message ≠ none → t.status = .failed)

/-! ### Client wait helper (`generation_queue_client.wait_for_task`)

One loop iteration of `wait_for_task` observes the task row, the worker
lease, and the monotonic clock; the loop body is otherwise pure.  The
embedding runs the loop over an explicit finite trace of such observations
(`time.sleep` separates consecutive observations). -/

/-- What one iteration of the polling loop observes: the `get_task` result,
the `is_worker_online` result, and `time.monotonic()`. -/
structure WaitObs where
  task : Option Task
  online : Bool
  now : Rat
deriving DecidableEq, Repr

/-- How a `wait_for_task` call ends: the returned terminal row, the
`task not found` RuntimeError, `TaskWaitTimeoutError`, `WorkerOfflineError`,
or still polling when the trace runs out. -/
inductive WaitResult where
  | found (t : Task)
  | notFound
  | timedOut
  | workerOffline
  | pending
deriving DecidableEq, Repr

/-- The observation shows a present, non-terminal task (the loop keeps
polling through it). -/
def obsPolling (o : WaitObs) : Bool :=
  match o.task with
  | none => false
  | some t => !(decide (t.status = .succeeded ∨ t.status = .failed))

/-- The body of `wait_for_task`'s `while True` loop, with the clamped
timeout/grace and `offline_since` threaded explicitly.  The timeout check
runs before the lease check, exactly as in the source. -/
def waitLoop (timeout : Option Rat) (grace : Rat) (start : Rat) :
    Option Rat → List WaitObs → WaitResult
  | _, [] => .pending
  | offSince, o :: rest =>
    match o.task with
    | none => .notFound
    | some task =>
      if task.status = .succeeded ∨ task.status = .failed then .found task
      else
        let hitTimeout : Bool :=
          match timeout with
          | some tmo => decide (tmo ≤ o.now - start)
          | none => false
        if hitTimeout then .timedOut
        else if o.online then waitLoop timeout grace start none rest
        else
          match offSince with
          | none => waitLoop timeout grace start (some o.now) rest
          | some t0 =>
            if grace ≤ o.now - t0 then .workerOffline
            else waitLoop timeout grace start (some t0) rest

/-- Model of `wait_for_task(task_id, ..., timeout_seconds, worker_offline_grace_seconds)`
over a trace: the timeout is clamped with `max(0.1, ...)` when given, the
offline grace with `max(0.1, ...)`, and the loop starts with no offline
tracking. -/
def wait_for_task (timeout : Option Rat) (grace : Rat) (start : Rat)
    (obs : List WaitObs) : WaitResult :=
  waitLoop (timeout.map (fun tmo => ratMax (1/10) tmo)) (ratMax (1/10) grace)
    start none obs

/-! ### SSE stream endpoint (`routers/tasks.stream_tasks`) -/

/-- The `last_event_id` the snapshot event carries: `max(cursor, latest)`
when the client supplied a resume cursor, the current latest id otherwise. -/
def sse_snapshot_cursor (db : QueueDB) (proj : Option String)
    (resume : Option Nat) : Nat :=
  let latest := get_latest_event_id db proj
  match resume with
  | some c => max c latest
  | none => latest

/-- The cursor the event loop starts polling `get_events_since` from: the
client-supplied cursor when one was given (the `cursor = snapshot_last_event_id`
assignment is skipped when `resume_requested`), otherwise the snapshot cursor. -/
def sse_loop_cursor (db : QueueDB) (proj : Option String)
    (resume : Option Nat) : Nat :=
  match resume with
  | some c => c
  | none => sse_snapshot_cursor db proj none

/-- The first batch of `task` events the loop emits after the snapshot
(`get_events_since(cursor, project_name, limit=200)` at the loop cursor). -/
def sse_first_batch (db : QueueDB) (proj : Option String)
    (resume : Option Nat) : List TaskEvent :=
  get_events_since db (sse_loop_cursor db proj resume) proj 200

/-- Modelled from the spec claim's words (not from the source): the loop
would emit only events with id strictly greater than the *chosen snapshot*
cursor.  Used to compare against `sse_first_batch`. -/
def sse_first_batch_claimed (db : QueueDB) (proj : Option String)
    (resume : Option Nat) : List TaskEvent :=
  get_events_since db (sse_snapshot_cursor db proj resume) proj 200

/-! ### Concrete runs used by scenario claims and witnesses -/

/-- Enqueue `(demo, storyboard, image, E1S01)` into a fresh database. -/
def exDB1 : QueueDB :=
  (enqueue_task emptyDB "t1" "demo" "storyboard" "image" "E1S01" "\x7b\x7d"
    none "webui" 0).1

/-- The task row `exDB1` holds. -/
def exTask1 : Task :=
  newQueuedTask "t1" "demo" "storyboard" "image" "E1S01" "\x7b\x7d" none "webui" 0

/-- State after also claiming the task on the `image` lane. -/
def exDB2 : QueueDB := (claim_next_task exDB1 "image" 1).1

/-- State after additionally marking the claimed task failed. -/
def exDB3 : QueueDB := (mark_task_failed exDB2 "t1" "boom" 2).1

/-- State after instead marking the claimed task succeeded with a result blob. -/
def exDB2S : QueueDB := (mark_task_succeeded exDB2 "t1" (some "r") 2).1

instance (db : QueueDB) : Decidable (resultOnlyOnSuccess db) := by
  unfold resultOnlyOnSuccess; infer_instance

instance (db : QueueDB) : Decidable (resultOnlyOnTerminal db) := by
  unfold resultOnlyOnTerminal; infer_instance

instance (l : List Task) : Decidable (uniqueTaskIds l) := by
  unfold uniqueTaskIds; infer_instance

/-! ## Helper lemmas -/

/-- Two rows of a table with unique ids and the same id are the same row. -/
theorem taskId_inj {l : List Task} (hu : uniqueTaskIds l) {a b : Task}
    (ha : a ∈ l) (hb : b ∈ l) (hid : a.task_id = b.task_id) : a = b :=
  List.inj_on_of_nodup_map hu ha hb hid

/-- Re-fetching by `task_id` after an id-preserving row update commutes with
looking the row up first. -/
theorem find?_taskId_map (l : List Task) (tid : String) (g : Task → Task)
    (hg : ∀ t, (g t).task_id = t.task_id) :
    (l.map g).find? (fun t => decide (t.task_id = tid)) =
      (l.find? (fun t => decide (t.task_id = tid))).map g := by
  have hp : ((fun t : Task => decide (t.task_id = tid)) ∘ g) =
      (fun t : Task => decide (t.task_id = tid)) := by
    funext t
    simp [Function.comp, hg]
  rw [List.find?_map, hp]

/-- With unique ids, `SELECT * FROM tasks WHERE task_id = ?` finds exactly
the member row with that id. -/
theorem find?_taskId_self {l : List Task} {t : Task} (hu : uniqueTaskIds l)
    (ht : t ∈ l) : l.find? (fun x => decide (x.task_id = t.task_id)) = some t := by
  induction l with
  | nil => cases ht
  | cons a tl ih =>
    by_cases h : a.task_id = t.task_id
    · have ha : a = t :=
        taskId_inj hu (List.mem_cons_self a tl) ht h
      subst ha
      exact List.find?_cons_of_pos _ (by simp)
    · have ht' : t ∈ tl := by
        rcases List.mem_cons.mp ht with rfl | h'
        · exact absurd rfl h
        · exact h'
      have hu' : uniqueTaskIds tl := by
        have := hu
        unfold uniqueTaskIds at this ⊢
        simpa using (List.nodup_cons.mp (by simpa using this)).2
      rw [List.find?_cons_of_neg _ (by simpa using h)]
      exact ih hu' ht'

/-- The DESC scan over a nonempty list whose members are all `ex` yields `ex`. -/
theorem pickLatest_const {ex : Task} :
    ∀ l : List Task, (∀ x ∈ l, x = ex) →
      l.foldl pickLatestStep (some ex) = some ex ∧
      (l ≠ [] → l.foldl pickLatestStep none = some ex) := by
  intro l
  induction l with
  | nil => intro _; exact ⟨rfl, by intro h; exact absurd rfl h⟩
  | cons x tl ih =>
    intro hall
    have hx : x = ex := hall x (List.mem_cons_self x tl)
    have htl : ∀ y ∈ tl, y = ex := fun y hy => hall y (List.mem_cons_of_mem x hy)
    subst hx
    constructor
    · show tl.foldl pickLatestStep (pickLatestStep (some x) x) = some x
      have hstep : pickLatestStep (some x) x = some x := by
        simp [pickLatestStep]
      rw [hstep]
      exact (ih htl).1
    · intro _
      show tl.foldl pickLatestStep (pickLatestStep none x) = some x
      have hstep : pickLatestStep none x = some x := rfl
      rw [hstep]
      exact (ih htl).1

/-- Restated head lemma: a nonempty all-`ex` list picks `ex`. -/
theorem pickLatestQueuedAt_const {ex : Task} {l : List Task} (hne : l ≠ [])
    (hall : ∀ x ∈ l, x = ex) : pickLatestQueuedAt l = some ex :=
  (pickLatest_const l hall).2 hne

/-- The ASC scan only ever returns a member of the scanned rows (or the
accumulator). -/
theorem selectFold_mem : ∀ (l : List Task) (acc : Option Task) (c : Task),
    l.foldl selectOldestStep acc = some c → c ∈ l ∨ acc = some c := by
  intro l
  induction l with
  | nil => intro acc c h; exact Or.inr h
  | cons x tl ih =>
    intro acc c h
    rcases ih (selectOldestStep acc x) c h with hin | heq
    · exact Or.inl (List.mem_cons_of_mem x hin)
    · cases acc with
      | none =>
        have hx : x = c := Option.some.inj heq
        exact Or.inl (hx ▸ List.mem_cons_self x tl)
      | some d =>
        by_cases hlt : x.queued_at < d.queued_at
        · have hs : selectOldestStep (some d) x = some x := by
            simp [selectOldestStep, hlt]
          rw [hs] at heq
          exact Or.inl ((Option.some.inj heq) ▸ List.mem_cons_self x tl)
        · have hs : selectOldestStep (some d) x = some d := by
            simp [selectOldestStep, hlt]
          rw [hs] at heq
          exact Or.inr heq

/-- The ASC scan returns a row whose `queued_at` is minimal among the scanned
rows and the accumulator. -/
theorem selectFold_min : ∀ (l : List Task) (acc : Option Task) (c : Task),
    l.foldl selectOldestStep acc = some c →
      (∀ x ∈ l, c.queued_at ≤ x.queued_at) ∧
      (∀ d, acc = some d → c.queued_at ≤ d.queued_at) := by
  intro l
  induction l with
  | nil =>
    intro acc c h
    exact ⟨fun x hx => absurd hx (List.not_mem_nil x),
      fun d hd => by rw [hd] at h; exact le_of_eq (congrArg Task.queued_at
        (Option.some.inj h).symm)⟩
  | cons x tl ih =>
    intro acc c h
    have ih' := ih (selectOldestStep acc x) c h
    have hcx : c.queued_at ≤ x.queued_at := by
      cases acc with
      | none => exact ih'.2 x rfl
      | some d =>
        by_cases hlt : x.queued_at < d.queued_at
        · exact ih'.2 x (by simp [selectOldestStep, hlt])
        · exact le_trans (ih'.2 d (by simp [selectOldestStep, hlt]))
            (Nat.le_of_not_lt hlt)
    refine ⟨?_, ?_⟩
    · intro y hy
      rcases List.mem_cons.mp hy with rfl | hy'
      · exact hcx
      · exact ih'.1 y hy'
    · intro e he
      subst he
      by_cases hlt : x.queued_at < e.queued_at
      · exact le_trans (ih'.2 x (by simp [selectOldestStep, hlt])) (le_of_lt hlt)
      · exact ih'.2 e (by simp [selectOldestStep, hlt])

/-- Once the ASC scan's accumulator beats row `a` (and is not `b`), rows no
earlier than `b` can never make `b` the result, provided
`a.queued_at ≤ b.queued_at`. -/
theorem selectFold_preserve {a b : Task} (hq : a.queued_at ≤ b.queued_at) :
    ∀ (l : List Task) (c : Task), c.queued_at ≤ a.queued_at → c ≠ b →
      ∃ c', l.foldl selectOldestStep (some c) = some c' ∧
        c'.queued_at ≤ a.queued_at ∧ c' ≠ b := by
  intro l
  induction l with
  | nil => intro c h1 h2; exact ⟨c, rfl, h1, h2⟩
  | cons x tl ih =>
    intro c h1 h2
    rw [List.foldl_cons]
    by_cases hlt : x.queued_at < c.queued_at
    · have hs : selectOldestStep (some c) x = some x := by
        simp [selectOldestStep, hlt]
      rw [hs]
      have hxa : x.queued_at ≤ a.queued_at := le_of_lt (lt_of_lt_of_le hlt h1)
      have hxb : x ≠ b := by
        intro hxb
        subst hxb
        exact absurd (lt_of_lt_of_le hlt h1) (not_lt.mpr hq)
      exact ih x hxa hxb
    · have hs : selectOldestStep (some c) x = some c := by
        simp [selectOldestStep, hlt]
      rw [hs]
      exact ih c h1 h2

/-- Properties of the claimed row: it is a queued member of the lane with
minimal `queued_at`. -/
theorem selectOldestQueued_spec {tasks : List Task} {media : String} {sel : Task}
    (h : selectOldestQueued tasks media = some sel) :
    sel ∈ tasks ∧ sel.status = .queued ∧ sel.media_type = media ∧
      ∀ x ∈ tasks, x.status = .queued → x.media_type = media →
        sel.queued_at ≤ x.queued_at := by
  unfold selectOldestQueued at h
  rcases selectFold_mem _ _ _ h with hin | habs
  · have hf := List.mem_filter.mp hin
    have hmin := (selectFold_min _ _ _ h).1
    refine ⟨hf.1, (of_decide_eq_true hf.2).1, (of_decide_eq_true hf.2).2, ?_⟩
    intro x hx hxs hxm
    exact hmin x (List.mem_filter.mpr ⟨hx, by simp [hxs, hxm]⟩)
  · simp at habs

/-- FIFO core: when `a` sits before `b` in rowid order with
`a.queued_at ≤ b.queued_at` and both are claimable in the lane, the scan
never returns `b`. -/
theorem selectOldestQueued_fifo {pre post : List Task} {a b : Task}
    {media : String} (hq : a.queued_at ≤ b.queued_at)
    (hpa : a.status = .queued) (hma : a.media_type = media)
    (hbpre : b ∉ pre) (hba : b ≠ a) {sel : Task}
    (h : selectOldestQueued (pre ++ a :: post) media = some sel) : sel ≠ b := by
  unfold selectOldestQueued at h
  rw [List.filter_append, List.filter_cons_of_pos (by simp [hpa, hma]),
    List.foldl_append, List.foldl_cons] at h
  set acc₁ := (pre.filter
    (fun t => decide (t.status = .queued ∧ t.media_type = media))).foldl
    selectOldestStep none with hacc₁
  have step_ok : ∃ c, selectOldestStep acc₁ a = some c ∧
      c.queued_at ≤ a.queued_at ∧ c ≠ b := by
    cases hval : acc₁ with
    | none => exact ⟨a, rfl, le_refl _, Ne.symm hba⟩
    | some c₀ =>
      have hc₀pre : c₀ ∈ pre := by
        rcases selectFold_mem _ _ _ (hacc₁ ▸ hval) with hin | habs
        · exact (List.mem_filter.mp hin).1
        · simp at habs
      have hc₀b : c₀ ≠ b := fun he => hbpre (he ▸ hc₀pre)
      by_cases hlt : a.queued_at < c₀.queued_at
      · exact ⟨a, by simp [selectOldestStep, hlt], le_refl _, Ne.symm hba⟩
      · exact ⟨c₀, by simp [selectOldestStep, hlt], Nat.le_of_not_lt hlt, hc₀b⟩
  rcases step_ok with ⟨c, hc, hca, hcb⟩
  rw [hc] at h
  rcases selectFold_preserve hq _ c hca hcb with ⟨c', hc', _, hc'b⟩
  rw [hc'] at h
  exact (Option.some.inj h) ▸ hc'b

/-! ## C1: enqueue dedup vs. fresh insert -/

/-- **C1** — For every enqueue whose dedup key matches an existing active
(queued/running) task, `enqueue_task` inserts no row, appends no event, and
returns `deduped=true` with that task's id; when no active task holds the
key, it inserts one new queued row with the fresh id, appends exactly one
`queued` event carrying the full new task, and returns `deduped=false`.
Hypotheses: the generated uuid is fresh, and (the dedupe-index invariant) at
most one active row holds the key. -/
theorem enqueue_task_correct (db : QueueDB) (tid p ty m r pj : String)
    (sf : Option String) (src : String) (now : Nat)
    (hfresh : ∀ t ∈ db.tasks, t.task_id ≠ tid)
    (hone : ∀ t₁ ∈ db.tasks, ∀ t₂ ∈ db.tasks,
      activeKeyMatch p ty r sf t₁ = true → activeKeyMatch p ty r sf t₂ = true →
      t₁ = t₂) :
    (∀ ex ∈ db.tasks, activeKeyMatch p ty r sf ex = true →
      enqueue_task db tid p ty m r pj sf src now =
        (db, .ok ⟨ex.task_id, ex.status, true, some ex.task_id⟩)) ∧
    ((∀ t ∈ db.tasks, activeKeyMatch p ty r sf t = false) →
      enqueue_task db tid p ty m r pj sf src now =
        (⟨db.tasks ++ [newQueuedTask tid p ty m r pj sf src now],
          db.events ++ [⟨db.next_event_id, tid, p, "queued", .queued,
            newQueuedTask tid p ty m r pj sf src now, now⟩],
          db.next_event_id + 1, db.leases⟩,
         .ok ⟨tid, .queued, false, none⟩)) := by
  have hpk : db.tasks.any (fun t => decide (t.task_id = tid)) = false := by
    simp only [List.any_eq_false, decide_eq_true_eq]
    exact hfresh
  constructor
  · intro ex hex hmatch
    have hmem : ex ∈ db.tasks.filter (activeKeyMatch p ty r sf) :=
      List.mem_filter.mpr ⟨hex, hmatch⟩
    have hne : db.tasks.filter (activeKeyMatch p ty r sf) ≠ [] :=
      List.ne_nil_of_mem hmem
    have hall : ∀ x ∈ db.tasks.filter (activeKeyMatch p ty r sf), x = ex := by
      intro x hx
      have hx' := List.mem_filter.mp hx
      exact hone x hx'.1 ex hex hx'.2 hmatch
    have hpick : pickLatestQueuedAt (db.tasks.filter (activeKeyMatch p ty r sf)) =
        some ex := pickLatestQueuedAt_const hne hall
    have hempty : (db.tasks.filter (activeKeyMatch p ty r sf)).isEmpty = false := by
      cases hcase : db.tasks.filter (activeKeyMatch p ty r sf) with
      | nil => exact absurd hcase hne
      | cons _ _ => rfl
    simp [enqueue_task, hpk, hempty, hpick]
  · intro hnone
    have hfilter : db.tasks.filter (activeKeyMatch p ty r sf) = [] := by
      apply List.filter_eq_nil_iff.mpr
      intro t ht
      simp [hnone t ht]
    simp [enqueue_task, hpk, hfilter]

/-- Witness for C1: in a database holding one active `(demo, storyboard,
E1S01)` task, a duplicate enqueue dedups to `t1`; in an empty database, the
insert branch fires. -/
theorem enqueue_task_correct_witness :
    enqueue_task exDB1 "t2" "demo" "storyboard" "image" "E1S01" "pj" none
        "webui" 5 =
      (exDB1, .ok ⟨exTask1.task_id, exTask1.status, true, some exTask1.task_id⟩) ∧
    enqueue_task emptyDB "t1" "demo" "storyboard" "image" "E1S01" "pj" none
        "webui" 0 =
      (⟨emptyDB.tasks ++ [newQueuedTask "t1" "demo" "storyboard" "image" "E1S01"
          "pj" none "webui" 0],
        emptyDB.events ++ [⟨emptyDB.next_event_id, "t1", "demo", "queued",
          .queued, newQueuedTask "t1" "demo" "storyboard" "image" "E1S01" "pj"
          none "webui" 0, 0⟩],
        emptyDB.next_event_id + 1, emptyDB.leases⟩,
       .ok ⟨"t1", .queued, false, none⟩) := by
  constructor
  · exact (enqueue_task_correct exDB1 "t2" "demo" "storyboard" "image" "E1S01"
      "pj" none "webui" 5 (by decide) (by decide)).1 exTask1 (by decide) (by decide)
  · exact (enqueue_task_correct emptyDB "t1" "demo" "storyboard" "image" "E1S01"
      "pj" none "webui" 0 (by decide) (by decide)).2 (by decide)

/-! ## C2: claim is oldest-first and FIFO within a lane -/

/-- **C2** — `claim_next_task` returns none and changes nothing on an empty
lane; otherwise it picks the queued task of the lane with minimal
`queued_at`, flips exactly that row to running (setting `started_at` only if
unset), appends exactly one `running` event, and returns the updated row.
Consequently a task enqueued earlier in a lane (no later `queued_at`, earlier
rowid) is never overtaken by a later one. -/
theorem claim_next_task_correct (db : QueueDB) (media : String) (now : Nat)
    (hu : uniqueTaskIds db.tasks) :
    (selectOldestQueued db.tasks media = none →
      claim_next_task db media now = (db, none)) ∧
    (∀ sel, selectOldestQueued db.tasks media = some sel →
      sel ∈ db.tasks ∧ sel.status = .queued ∧ sel.media_type = media ∧
      (∀ x ∈ db.tasks, x.status = .queued → x.media_type = media →
        sel.queued_at ≤ x.queued_at) ∧
      claim_next_task db media now =
        (⟨db.tasks.map (fun t =>
            if t.task_id = sel.task_id then applyClaim now t else t),
          db.events ++ [⟨db.next_event_id, sel.task_id,
            (applyClaim now sel).project_name, "running", .running,
            applyClaim now sel, now⟩],
          db.next_event_id + 1, db.leases⟩,
         some (applyClaim now sel)) ∧
      (applyClaim now sel).status = .running ∧
      (applyClaim now sel).started_at = some (sel.started_at.getD now)) ∧
    (∀ (pre post : List Task) (a b : Task), db.tasks = pre ++ a :: post →
      b ∈ post → a.status = .queued → b.status = .queued →
      a.media_type = media → b.media_type = media →
      a.queued_at ≤ b.queued_at →
      ∀ c, (claim_next_task db media now).2 = some c → c.task_id ≠ b.task_id) := by
  have hgid : ∀ t : Task,
      ((fun t => if t.task_id = t.task_id then applyClaim now t else t) t).task_id
        = t.task_id := by
    intro t
    simp [applyClaim]
  refine ⟨?_, ?_, ?_⟩
  · intro hnone
    simp [claim_next_task, hnone]
  · intro sel hsel
    obtain ⟨hmem, hqs, hms, hmin⟩ := selectOldestQueued_spec hsel
    have hg : ∀ t : Task,
        ((fun t => if t.task_id = sel.task_id then applyClaim now t else t) t).task_id
          = t.task_id := by
      intro t
      by_cases h : t.task_id = sel.task_id <;> simp [h, applyClaim]
    have hfind : (db.tasks.map (fun t =>
        if t.task_id = sel.task_id then applyClaim now t else t)).find?
          (fun t => decide (t.task_id = sel.task_id)) = some (applyClaim now sel) := by
      rw [find?_taskId_map db.tasks sel.task_id _ hg, find?_taskId_self hu hmem]
      simp
    refine ⟨hmem, hqs, hms, hmin, ?_, rfl, rfl⟩
    simp [claim_next_task, hsel, hfind]
  · intro pre post a b hsplit hbpost hqa hqb hmma hmmb hqle c hc
    have hbmem : b ∈ db.tasks := by
      rw [hsplit]
      exact List.mem_append.mpr (Or.inr (List.mem_cons_of_mem a hbpost))
    have hnodup : ((pre ++ a :: post).map (fun t => t.task_id)).Nodup := by
      rw [← hsplit]
      exact hu
    have hnodup' : ((pre.map (fun t => t.task_id)) ++
        ((a :: post).map (fun t => t.task_id))).Nodup := by
      simpa using hnodup
    have hba : b ≠ a := by
      intro he
      have h1 : ((a :: post).map (fun t => t.task_id)).Nodup :=
        List.Nodup.of_append_right hnodup'
      have h2 : a.task_id ∉ post.map (fun t => t.task_id) :=
        (List.nodup_cons.mp (by simpa using h1)).1
      apply h2
      rw [← he]
      exact List.mem_map_of_mem _ hbpost
    have hbpre : b ∉ pre := by
      intro he
      have hd := List.disjoint_of_nodup_append hnodup'
      exact hd (List.mem_map_of_mem _ he)
        (List.mem_cons_of_mem _ (List.mem_map_of_mem _ hbpost))
    cases hselcase : selectOldestQueued db.tasks media with
    | none =>
      have : claim_next_task db media now = (db, none) := by
        simp [claim_next_task, hselcase]
      rw [this] at hc
      simp at hc
    | some sel =>
      have hsel' : selectOldestQueued (pre ++ a :: post) media = some sel := by
        rw [← hsplit]; exact hselcase
      have hselb : sel ≠ b :=
        selectOldestQueued_fifo hqle hqa hmma hbpre hba hsel'
      obtain ⟨hmem, _, _, _⟩ := selectOldestQueued_spec hselcase
      have hg : ∀ t : Task,
          ((fun t => if t.task_id = sel.task_id then applyClaim now t else t) t).task_id
            = t.task_id := by
        intro t
        by_cases h : t.task_id = sel.task_id <;> simp [h, applyClaim]
      have hfind : (db.tasks.map (fun t =>
          if t.task_id = sel.task_id then applyClaim now t else t)).find?
            (fun t => decide (t.task_id = sel.task_id)) = some (applyClaim now sel) := by
        rw [find?_taskId_map db.tasks sel.task_id _ hg, find?_taskId_self hu hmem]
        simp
      have hc' : c = applyClaim now sel := by
        have : (claim_next_task db media now).2 = some (applyClaim now sel) := by
          simp [claim_next_task, hselcase, hfind]
        rw [this] at hc
        exact (Option.some.inj hc).symm
      subst hc'
      have hcid : (applyClaim now sel).task_id = sel.task_id := rfl
      rw [hcid]
      intro hid
      exact hselb (taskId_inj hu hmem hbmem hid)

/-- Witness for C2: in the one-task database, claiming the `image` lane flips
`t1` to running and appends the `running` event. -/
theorem claim_next_task_correct_witness :
    claim_next_task exDB1 "image" 1 =
      (⟨exDB1.tasks.map (fun t =>
          if t.task_id = exTask1.task_id then applyClaim 1 t else t),
        exDB1.events ++ [⟨exDB1.next_event_id, exTask1.task_id,
          (applyClaim 1 exTask1).project_name, "running", .running,
          applyClaim 1 exTask1, 1⟩],
        exDB1.next_event_id + 1, exDB1.leases⟩,
       some (applyClaim 1 exTask1)) :=
  (((claim_next_task_correct exDB1 "image" 1 (by decide)).2.1 exTask1
    (by decide)).2.2.2.2).1

/-! ## C3: incremental event reads -/

/-- **C3** — `get_events_since` returns exactly the recorded events with id
strictly greater than the cursor (restricted to the project when supplied),
in strictly increasing id order, capped at the limit; and in the concrete
enqueue→claim→fail run the events since cursor 0 are exactly
`[queued, running, failed]` with strictly increasing ids, while the events
since the running event's id (2) are exactly `[failed]`. -/
theorem get_events_since_correct (db : QueueDB) (last : Nat) (proj : Option String)
    (limit : Int)
    (hsorted : db.events.Pairwise (fun e₁ e₂ => e₁.id < e₂.id))
    (hlim : 1 ≤ limit ∧ limit ≤ 1000) :
    (∀ e ∈ get_events_since db last proj limit,
      e ∈ db.events ∧ last < e.id ∧ ∀ p, proj = some p → e.project_name = p) ∧
    (get_events_since db last proj limit).Pairwise (fun e₁ e₂ => e₁.id < e₂.id) ∧
    (get_events_since db last proj limit).length ≤ limit.toNat ∧
    ((db.events.filter (eventSinceMatch last proj)).length ≤ limit.toNat →
      ∀ e ∈ db.events, eventSinceMatch last proj e = true →
        e ∈ get_events_since db last proj limit) ∧
    exDB3.events.map (fun e => e.event_type) = ["queued", "running", "failed"] ∧
    exDB3.events.Pairwise (fun e₁ e₂ => e₁.id < e₂.id) ∧
    (get_events_since exDB3 0 (some "demo") 200).map (fun e => e.event_type) =
      ["queued", "running", "failed"] ∧
    (get_events_since exDB3 2 (some "demo") 200).map (fun e => e.event_type) =
      ["failed"] := by
  have hclamp : clampNat 1 1000 limit = limit.toNat := by
    unfold clampNat
    omega
  refine ⟨?_, ?_, ?_, ?_, by decide, by decide, by decide, by decide⟩
  · intro e he
    unfold get_events_since at he
    have he' : e ∈ db.events.filter (eventSinceMatch last proj) :=
      List.take_subset _ _ he
    have hf := List.mem_filter.mp he'
    have hb := hf.2
    unfold eventSinceMatch at hb
    simp only [Bool.and_eq_true] at hb
    refine ⟨hf.1, of_decide_eq_true hb.1, ?_⟩
    intro p hp
    subst hp
    simpa using hb.2
  · exact List.Pairwise.sublist
      ((List.take_sublist _ _).trans (List.filter_sublist _)) hsorted
  · unfold get_events_since
    rw [hclamp, List.length_take]
    exact Nat.min_le_left _ _
  · intro hlen e he hm
    unfold get_events_since
    rw [hclamp, List.take_of_length_le hlen]
    exact List.mem_filter.mpr ⟨he, hm⟩

/-- Witness for C3 at a concrete call: reading the scenario database from
cursor 0 with limit 200. -/
theorem get_events_since_correct_witness :
    (∀ e ∈ get_events_since exDB3 0 none 200,
      e ∈ exDB3.events ∧ 0 < e.id ∧ ∀ p, (none : Option String) = some p →
        e.project_name = p) ∧
    (get_events_since exDB3 0 none 200).length ≤ (200 : Int).toNat := by
  have h := get_events_since_correct exDB3 0 none 200 (by decide)
    ⟨by decide, by decide⟩
  exact ⟨h.1, h.2.2.1⟩

/-! ## C4: worker lease acquire/renew and takeover -/

/-- Branch behaviour of the lease acquire: insert on a missing row, update
when the owner matches or the lease expired, refuse otherwise. -/
theorem acquire_or_renew_worker_lease_cases (db : QueueDB) (name owner : String)
    (ttl now : Rat) (wall : Nat) :
    (db.leases.find? (fun l => decide (l.name = name)) = none →
      acquire_or_renew_worker_lease db name owner ttl now wall =
        (⟨db.tasks, db.events, db.next_event_id,
          db.leases ++ [⟨name, owner, now + ratMax 1 ttl, wall⟩]⟩, true)) ∧
    (∀ row, db.leases.find? (fun l => decide (l.name = name)) = some row →
      (row.owner_id = owner ∨ row.lease_until ≤ now) →
      acquire_or_renew_worker_lease db name owner ttl now wall =
        (⟨db.tasks, db.events, db.next_event_id,
          db.leases.map (fun l => if l.name = name then
            ⟨name, owner, now + ratMax 1 ttl, wall⟩ else l)⟩, true)) ∧
    (∀ row, db.leases.find? (fun l => decide (l.name = name)) = some row →
      row.owner_id ≠ owner → now < row.lease_until →
      acquire_or_renew_worker_lease db name owner ttl now wall = (db, false)) := by
  refine ⟨?_, ?_, ?_⟩
  · intro hnone
    simp [acquire_or_renew_worker_lease, hnone]
  · intro row hrow hcond
    simp only [acquire_or_renew_worker_lease, hrow]
    rw [if_pos hcond]
  · intro row hrow hown hlt
    simp only [acquire_or_renew_worker_lease, hrow]
    rw [if_neg]
    rintro (he | hle)
    · exact hown he
    · exact absurd hlt (not_lt.mpr hle)

/-- The original C4 is false at `ttl_seconds = 1/2`: the code clamps the TTL
with `max(1.0, ttl_seconds)`, so acquiring on an empty table at `now = 0`
installs expiry `1`, not `now + ttl = 1/2`. -/
theorem acquire_lease_ttl_counterexample :
    (acquire_or_renew_worker_lease emptyDB "default" "A" (1/2) 0 0).1.leases =
      [⟨"default", "A", 1, 0⟩] ∧ (1 : Rat) ≠ 0 + 1/2 := by
  have h := (acquire_or_renew_worker_lease_cases emptyDB "default" "A" (1/2)
    0 0).1 rfl
  constructor
  · rw [h]
    show emptyDB.leases ++ [⟨"default", "A", 0 + ratMax 1 (1/2), 0⟩] =
      [⟨"default", "A", 1, 0⟩]
    have harith : (0 : Rat) + ratMax 1 (1/2) = 1 := by norm_num [ratMax]
    rw [harith]
    rfl
  · norm_num

/-- **C4 (amended)** — `acquire_or_renew_worker_lease` returns true and
installs `owner_id` with expiry `now + max(1, ttl)` exactly when no lease row
exists for the name, the existing row's owner is already `owner_id`, or the
row's `lease_until` has passed; otherwise it returns false and leaves the row
unchanged.  Consequently, after A acquires with TTL T on a free name, B's
acquire fails while `now + max(1, T)` lies in the future and succeeds once it
has passed. -/
theorem acquire_or_renew_worker_lease_correct (db : QueueDB)
    (name owner : String) (ttl now : Rat) (wall : Nat) :
    (db.leases.find? (fun l => decide (l.name = name)) = none →
      acquire_or_renew_worker_lease db name owner ttl now wall =
        (⟨db.tasks, db.events, db.next_event_id,
          db.leases ++ [⟨name, owner, now + ratMax 1 ttl, wall⟩]⟩, true)) ∧
    (∀ row, db.leases.find? (fun l => decide (l.name = name)) = some row →
      (row.owner_id = owner ∨ row.lease_until ≤ now) →
      acquire_or_renew_worker_lease db name owner ttl now wall =
        (⟨db.tasks, db.events, db.next_event_id,
          db.leases.map (fun l => if l.name = name then
            ⟨name, owner, now + ratMax 1 ttl, wall⟩ else l)⟩, true)) ∧
    (∀ row, db.leases.find? (fun l => decide (l.name = name)) = some row →
      row.owner_id ≠ owner → now < row.lease_until →
      acquire_or_renew_worker_lease db name owner ttl now wall = (db, false)) ∧
    (db.leases.find? (fun l => decide (l.name = name)) = none →
      ∀ ownerB : String, ownerB ≠ owner → ∀ ttlB t : Rat, ∀ wallB : Nat,
        (t < now + ratMax 1 ttl →
          acquire_or_renew_worker_lease
              (acquire_or_renew_worker_lease db name owner ttl now wall).1
              name ownerB ttlB t wallB =
            ((acquire_or_renew_worker_lease db name owner ttl now wall).1,
              false)) ∧
        (now + ratMax 1 ttl ≤ t →
          (acquire_or_renew_worker_lease
              (acquire_or_renew_worker_lease db name owner ttl now wall).1
              name ownerB ttlB t wallB).2 = true)) := by
  obtain ⟨hb1, hb2, hb3⟩ :=
    acquire_or_renew_worker_lease_cases db name owner ttl now wall
  refine ⟨hb1, hb2, hb3, ?_⟩
  · intro hnone ownerB hBne ttlB t wallB
    have hdb1 := hb1 hnone
    set db₁ := (acquire_or_renew_worker_lease db name owner ttl now wall).1
      with hdefn
    have hleases : db₁.leases =
        db.leases ++ [⟨name, owner, now + ratMax 1 ttl, wall⟩] := by
      rw [hdefn, hdb1]
    have hfind1 : db₁.leases.find? (fun l => decide (l.name = name)) =
        some ⟨name, owner, now + ratMax 1 ttl, wall⟩ := by
      rw [hleases, List.find?_append, hnone]
      simp
    have hrenew := acquire_or_renew_worker_lease_cases db₁ name ownerB ttlB t
      wallB
    constructor
    · intro hlt
      rcases hrenew with ⟨_, _, hfail⟩
      exact hfail ⟨name, owner, now + ratMax 1 ttl, wall⟩ hfind1
        (fun he => hBne he.symm) hlt
    · intro hle
      rcases hrenew with ⟨_, hok, _⟩
      rw [hok ⟨name, owner, now + ratMax 1 ttl, wall⟩ hfind1 (Or.inr hle)]

/-- Witness for C4: A acquires a free `default` lease with TTL 5 at time 0;
B is refused at time 3 and succeeds at time 6. -/
theorem acquire_or_renew_worker_lease_correct_witness :
    acquire_or_renew_worker_lease emptyDB "default" "A" 5 0 0 =
      (⟨emptyDB.tasks, emptyDB.events, emptyDB.next_event_id,
        emptyDB.leases ++ [⟨"default", "A", 0 + ratMax 1 5, 0⟩]⟩, true) ∧
    acquire_or_renew_worker_lease
        (acquire_or_renew_worker_lease emptyDB "default" "A" 5 0 0).1
        "default" "B" 5 3 3 =
      ((acquire_or_renew_worker_lease emptyDB "default" "A" 5 0 0).1, false) ∧
    (acquire_or_renew_worker_lease
        (acquire_or_renew_worker_lease emptyDB "default" "A" 5 0 0).1
        "default" "B" 5 6 6).2 = true := by
  have h := acquire_or_renew_worker_lease_correct emptyDB "default" "A" 5 0 0
  refine ⟨h.1 rfl, ?_, ?_⟩
  · exact (h.2.2.2 rfl "B" (by decide) 5 3 3).1 (by norm_num [ratMax])
  · exact (h.2.2.2 rfl "B" (by decide) 5 6 6).2 (by norm_num [ratMax])

/-! ## C6: terminal marking -/

/-- **C6** — `mark_task_succeeded` and `mark_task_failed` set the terminal
status, store the result blob (resp. the error message truncated to 2000
characters), set `finished_at`, and append exactly one corresponding terminal
event; when no task with the id exists they return none and leave the tasks
table and the event log unchanged. -/
theorem mark_terminal_correct (db : QueueDB) (tid : String) (res : Option String)
    (msg : String) (now : Nat) :
    ((∀ t ∈ db.tasks, t.task_id ≠ tid) →
      mark_task_succeeded db tid res now = (db, none) ∧
      mark_task_failed db tid msg now = (db, none)) ∧
    (∀ t ∈ db.tasks, t.task_id = tid → uniqueTaskIds db.tasks →
      (mark_task_succeeded db tid res now =
        (⟨db.tasks.map (fun x =>
            if x.task_id = tid then applySucceeded res now x else x),
          db.events ++ [⟨db.next_event_id, tid,
            (applySucceeded res now t).project_name, "succeeded", .succeeded,
            applySucceeded res now t, now⟩],
          db.next_event_id + 1, db.leases⟩,
         some (applySucceeded res now t)) ∧
        (applySucceeded res now t).status = .succeeded ∧
        (applySucceeded res now t).result_json = some (jsonOrEmpty res) ∧
        (applySucceeded res now t).finished_at = some now) ∧
      (mark_task_failed db tid msg now =
        (⟨db.tasks.map (fun x =>
            if x.task_id = tid then applyFailed msg now x else x),
          db.events ++ [⟨db.next_event_id, tid,
            (applyFailed msg now t).project_name, "failed", .failed,
            applyFailed msg now t, now⟩],
          db.next_event_id + 1, db.leases⟩,
         some (applyFailed msg now t)) ∧
        (applyFailed msg now t).status = .failed ∧
        (applyFailed msg now t).error_message =
          some (truncateMessage msg 2000) ∧
        (applyFailed msg now t).finished_at = some now ∧
        (truncateMessage msg 2000).length ≤ 2000)) := by
  constructor
  · intro habs
    have hany : db.tasks.any (fun t => decide (t.task_id = tid)) = false := by
      simp only [List.any_eq_false, decide_eq_true_eq]
      exact habs
    constructor
    · simp [mark_task_succeeded, hany]
    · simp [mark_task_failed, hany]
  · intro t ht htid hu
    subst htid
    have hany : db.tasks.any (fun x => decide (x.task_id = t.task_id)) = true :=
      List.any_eq_true.mpr ⟨t, ht, by simp⟩
    have htrunc : (truncateMessage msg 2000).length ≤ 2000 := by
      have he : (truncateMessage msg 2000).length =
          (msg.data.take 2000).length := rfl
      rw [he, List.length_take]
      exact Nat.min_le_left _ _
    constructor
    · have hg : ∀ x : Task,
          ((fun x => if x.task_id = t.task_id then applySucceeded res now x
            else x) x).task_id = x.task_id := by
        intro x
        by_cases h : x.task_id = t.task_id <;> simp [h, applySucceeded]
      have hfind : (db.tasks.map (fun x =>
          if x.task_id = t.task_id then applySucceeded res now x else x)).find?
            (fun x => decide (x.task_id = t.task_id)) =
          some (applySucceeded res now t) := by
        rw [find?_taskId_map db.tasks t.task_id _ hg, find?_taskId_self hu ht]
        simp
      refine ⟨?_, rfl, rfl, rfl⟩
      simp [mark_task_succeeded, hany, hfind]
    · have hg : ∀ x : Task,
          ((fun x => if x.task_id = t.task_id then applyFailed msg now x
            else x) x).task_id = x.task_id := by
        intro x
        by_cases h : x.task_id = t.task_id <;> simp [h, applyFailed]
      have hfind : (db.tasks.map (fun x =>
          if x.task_id = t.task_id then applyFailed msg now x else x)).find?
            (fun x => decide (x.task_id = t.task_id)) =
          some (applyFailed msg now t) := by
        rw [find?_taskId_map db.tasks t.task_id _ hg, find?_taskId_self hu ht]
        simp
      refine ⟨?_, rfl, rfl, rfl, htrunc⟩
      simp [mark_task_failed, hany, hfind]

/-- Witness for C6: marking the claimed task of the scenario database
succeeded applies the update and event; marking an unknown id is a no-op. -/
theorem mark_terminal_correct_witness :
    mark_task_succeeded exDB2 "t1" (some "r") 2 =
      (⟨exDB2.tasks.map (fun x =>
          if x.task_id = "t1" then applySucceeded (some "r") 2 x else x),
        exDB2.events ++ [⟨exDB2.next_event_id, "t1",
          (applySucceeded (some "r") 2 (applyClaim 1 exTask1)).project_name,
          "succeeded", .succeeded, applySucceeded (some "r") 2
            (applyClaim 1 exTask1), 2⟩],
        exDB2.next_event_id + 1, exDB2.leases⟩,
       some (applySucceeded (some "r") 2 (applyClaim 1 exTask1))) ∧
    mark_task_failed exDB2 "zzz" "m" 2 = (exDB2, none) := by
  have h := mark_terminal_correct exDB2 "t1" (some "r") "m" 2
  have h2 := mark_terminal_correct exDB2 "zzz" (some "r") "m" 2
  exact ⟨(h.2 (applyClaim 1 exTask1) (by decide) (by decide) (by decide)).1.1,
    (h2.1 (by decide)).2⟩

/-! ## Requeue machinery (C5, C10) -/

/-- One requeue iteration on a database holding a (unique-id) running row
with the given id: the row is reset, one `requeued` event is appended, and
the counter increments. -/
theorem requeueOne_spec (now : Nat) (db : QueueDB) (c : Nat) (tid : String)
    (hu : uniqueTaskIds db.tasks)
    (hex : ∃ t ∈ db.tasks, t.task_id = tid ∧ t.status = .running) :
    ∃ ev : TaskEvent, ev.event_type = "requeued" ∧ ev.status = .queued ∧
      requeueOne now (db, c) tid =
        (⟨db.tasks.map (fun t =>
            if t.task_id = tid ∧ t.status = .running then resetTask now t else t),
          db.events ++ [ev], db.next_event_id + 1, db.leases⟩, c + 1) := by
  obtain ⟨t₀, ht₀, htid, hrun⟩ := hex
  subst htid
  refine ⟨⟨db.next_event_id, t₀.task_id, (resetTask now t₀).project_name,
    "requeued", .queued, resetTask now t₀, now⟩, rfl, rfl, ?_⟩
  have hg : ∀ x : Task, ((fun t =>
      if t.task_id = t₀.task_id ∧ t.status = .running then resetTask now t
      else t) x).task_id = x.task_id := by
    intro x
    by_cases h : x.task_id = t₀.task_id ∧ x.status = .running <;>
      simp [h, resetTask]
  have hfind : (db.tasks.map (fun t =>
      if t.task_id = t₀.task_id ∧ t.status = .running then resetTask now t
      else t)).find? (fun t => decide (t.task_id = t₀.task_id)) =
      some (resetTask now t₀) := by
    rw [find?_taskId_map db.tasks t₀.task_id _ hg, find?_taskId_self hu ht₀]
    simp [hrun]
  simp only [requeueOne]
  rw [hfind]
  rfl

/-- An id-preserving row update keeps the id column, hence id uniqueness. -/
theorem uniqueTaskIds_map {l : List Task} {g : Task → Task}
    (hg : ∀ t, (g t).task_id = t.task_id) (hu : uniqueTaskIds l) :
    uniqueTaskIds (l.map g) := by
  unfold uniqueTaskIds at hu ⊢
  rw [List.map_map]
  have : ((fun t : Task => t.task_id) ∘ g) = (fun t : Task => t.task_id) := by
    funext t
    simp [Function.comp, hg]
  rw [this]
  exact hu

/-- Folding the requeue loop over distinct ids of running rows resets exactly
those rows, appends one `requeued` event per id, and counts them. -/
theorem requeue_fold_spec (now : Nat) :
    ∀ (ids : List String) (db : QueueDB) (c : Nat),
      uniqueTaskIds db.tasks → ids.Nodup →
      (∀ tid ∈ ids, ∃ t ∈ db.tasks, t.task_id = tid ∧ t.status = .running) →
      (ids.foldl (requeueOne now) (db, c)).2 = c + ids.length ∧
      (ids.foldl (requeueOne now) (db, c)).1.tasks =
        db.tasks.map (fun t =>
          if t.task_id ∈ ids ∧ t.status = .running then resetTask now t
          else t) ∧
      (∃ evs, (ids.foldl (requeueOne now) (db, c)).1.events = db.events ++ evs ∧
        evs.length = ids.length ∧
        ∀ e ∈ evs, e.event_type = "requeued" ∧ e.status = .queued) ∧
      (ids.foldl (requeueOne now) (db, c)).1.leases = db.leases := by
  intro ids
  induction ids with
  | nil =>
    intro db c _ _ _
    refine ⟨rfl, ?_, ⟨[], by simp, rfl, by simp⟩, rfl⟩
    simp
  | cons tid tl ih =>
    intro db c hu hnd hex
    obtain ⟨ev, hevty, hevst, hstep⟩ := requeueOne_spec now db c tid hu
      (hex tid (List.mem_cons_self tid tl))
    have htid_tl : tid ∉ tl := (List.nodup_cons.mp hnd).1
    have hnd' : tl.Nodup := (List.nodup_cons.mp hnd).2
    set g₁ : Task → Task := fun t =>
      if t.task_id = tid ∧ t.status = .running then resetTask now t else t
      with hg₁def
    have hg₁ : ∀ t, (g₁ t).task_id = t.task_id := by
      intro t
      rw [hg₁def]
      by_cases h : t.task_id = tid ∧ t.status = .running <;>
        simp [h, resetTask]
    set db₁ : QueueDB := ⟨db.tasks.map g₁, db.events ++ [ev],
      db.next_event_id + 1, db.leases⟩ with hdb₁def
    have hu₁ : uniqueTaskIds db₁.tasks := uniqueTaskIds_map hg₁ hu
    have hex₁ : ∀ tid' ∈ tl, ∃ t ∈ db₁.tasks, t.task_id = tid' ∧
        t.status = .running := by
      intro tid' htl
      obtain ⟨t', ht', htid', hrun'⟩ :=
        hex tid' (List.mem_cons_of_mem tid htl)
      have hne : t'.task_id ≠ tid := by
        rw [htid']
        intro he
        exact htid_tl (he ▸ htl)
      have hkeep : g₁ t' = t' := by
        rw [hg₁def]
        simp [hne]
      refine ⟨t', ?_, htid', hrun'⟩
      show t' ∈ db.tasks.map g₁
      rw [← hkeep]
      exact List.mem_map_of_mem g₁ ht'
    have ihres := ih db₁ (c + 1) hu₁ hnd' hex₁
    have hfold : (tid :: tl).foldl (requeueOne now) (db, c) =
        tl.foldl (requeueOne now) (db₁, c + 1) := by
      rw [List.foldl_cons, hstep]
    refine ⟨?_, ?_, ?_, ?_⟩
    · rw [hfold, ihres.1]
      simp [Nat.add_assoc, Nat.add_comm 1 tl.length]
    · rw [hfold, ihres.2.1]
      show (db.tasks.map g₁).map (fun t =>
          if t.task_id ∈ tl ∧ t.status = .running then resetTask now t else t) =
        _
      rw [List.map_map]
      apply List.map_congr_left
      intro t _
      show (if (g₁ t).task_id ∈ tl ∧ (g₁ t).status = .running then
          resetTask now (g₁ t) else g₁ t) =
        (if t.task_id ∈ tid :: tl ∧ t.status = .running then resetTask now t
          else t)
      by_cases htid : t.task_id = tid
      · by_cases hrun : t.status = .running
        · have hg : g₁ t = resetTask now t := by
            rw [hg₁def]
            simp [htid, hrun]
          rw [hg]
          have h1 : ¬((resetTask now t).task_id ∈ tl ∧
              (resetTask now t).status = .running) := by
            intro hc
            exact Status.noConfusion hc.2
          rw [if_neg h1, if_pos ⟨by simp [htid], hrun⟩]
        · have hg : g₁ t = t := by
            rw [hg₁def]
            simp [hrun]
          rw [hg]
          have h1 : ¬(t.task_id ∈ tl ∧ t.status = .running) :=
            fun hc => hrun hc.2
          have h2 : ¬(t.task_id ∈ tid :: tl ∧ t.status = .running) :=
            fun hc => hrun hc.2
          rw [if_neg h1, if_neg h2]
      · have hg : g₁ t = t := by
          rw [hg₁def]
          simp [htid]
        rw [hg]
        simp [List.mem_cons, htid]
    · obtain ⟨evs, hevs, hlen, hall⟩ := ihres.2.2.1
      refine ⟨ev :: evs, ?_, by simp [hlen], ?_⟩
      · rw [hfold, hevs]
        show db₁.events ++ evs = db.events ++ ev :: evs
        rw [hdb₁def]
        simp
      · intro e he
        rcases List.mem_cons.mp he with rfl | he'
        · exact ⟨hevty, hevst⟩
        · exact hall e he'
    · rw [hfold, ihres.2.2.2]

/-- Facts about the ids the requeue `SELECT ... ORDER BY updated_at ASC
LIMIT ?` picks: they are distinct ids of running rows, there are
`min lim #running` of them, and with a large enough limit they cover every
running row. -/
theorem requeue_selected_facts (db : QueueDB) (lim : Nat)
    (hu : uniqueTaskIds db.tasks) :
    (((List.insertionSort (fun a b => a.updated_at ≤ b.updated_at)
        (runningTasks db)).take lim).map (fun t => t.task_id)).Nodup ∧
    (∀ tid ∈ ((List.insertionSort (fun a b => a.updated_at ≤ b.updated_at)
        (runningTasks db)).take lim).map (fun t => t.task_id),
      ∃ t ∈ db.tasks, t.task_id = tid ∧ t.status = .running) ∧
    (((List.insertionSort (fun a b => a.updated_at ≤ b.updated_at)
        (runningTasks db)).take lim).map (fun t => t.task_id)).length =
      min lim (runningTasks db).length ∧
    ((runningTasks db).length ≤ lim → ∀ t ∈ runningTasks db,
      t.task_id ∈ ((List.insertionSort (fun a b => a.updated_at ≤ b.updated_at)
        (runningTasks db)).take lim).map (fun t => t.task_id)) := by
  have hperm : List.Perm (List.insertionSort
      (fun a b => a.updated_at ≤ b.updated_at) (runningTasks db))
      (runningTasks db) :=
    List.perm_insertionSort _ _
  have hrun_sub : List.Sublist ((runningTasks db).map (fun t => t.task_id))
      (db.tasks.map (fun t => t.task_id)) :=
    (List.filter_sublist _).map _
  have hrun_nodup : ((runningTasks db).map (fun t => t.task_id)).Nodup :=
    List.Nodup.sublist hrun_sub hu
  have hsort_nodup : ((List.insertionSort
      (fun a b => a.updated_at ≤ b.updated_at)
      (runningTasks db)).map (fun t => t.task_id)).Nodup :=
    ((hperm.map _).nodup_iff).mpr hrun_nodup
  refine ⟨?_, ?_, ?_, ?_⟩
  · exact List.Nodup.sublist ((List.take_sublist _ _).map _) hsort_nodup
  · intro tid htid
    obtain ⟨x, hx, hxid⟩ := List.mem_map.mp htid
    have hx' : x ∈ runningTasks db :=
      hperm.mem_iff.mp (List.take_subset _ _ hx)
    have hx'' := List.mem_filter.mp hx'
    exact ⟨x, hx''.1, hxid, of_decide_eq_true hx''.2⟩
  · rw [List.length_map, List.length_take, hperm.length_eq]
  · intro hle t ht
    have hsorted_all : (List.insertionSort
        (fun a b => a.updated_at ≤ b.updated_at) (runningTasks db)).take lim =
        List.insertionSort (fun a b => a.updated_at ≤ b.updated_at)
          (runningTasks db) :=
      List.take_of_length_le (by rw [hperm.length_eq]; exact hle)
    rw [hsorted_all]
    exact List.mem_map_of_mem _ (hperm.mem_iff.mpr ht)

/-- A single requeue iteration bumps the counter by at most one. -/
theorem requeueOne_snd_le (now : Nat) (acc : QueueDB × Nat) (tid : String) :
    (requeueOne now acc tid).2 ≤ acc.2 + 1 := by
  simp only [requeueOne]
  split
  · exact Nat.le_succ _
  · split
    · exact Nat.le_refl _
    · exact Nat.le_succ _

/-- The requeue loop over a list of ids bumps the counter by at most the
number of ids. -/
theorem requeue_fold_count_le (now : Nat) :
    ∀ (ids : List String) (acc : QueueDB × Nat),
      (ids.foldl (requeueOne now) acc).2 ≤ acc.2 + ids.length := by
  intro ids
  induction ids with
  | nil => intro acc; simp
  | cons tid tl ih =>
    intro acc
    rw [List.foldl_cons]
    have h1 := ih (requeueOne now acc tid)
    have h2 := requeueOne_snd_le now acc tid
    simp only [List.length_cons]
    omega

/-- With unique ids, the number of rows a requeue call resets is exactly
`min(clamped limit, number of running rows)`. -/
theorem requeue_count_eq (db : QueueDB) (limit : Int) (now : Nat)
    (hu : uniqueTaskIds db.tasks) :
    (requeue_running_tasks db limit now).2 =
      min (clampNat 1 5000 limit) (runningTasks db).length := by
  obtain ⟨hnd, hex, hlen, _⟩ :=
    requeue_selected_facts db (clampNat 1 5000 limit) hu
  have hfold := requeue_fold_spec now
    (((List.insertionSort (fun a b => a.updated_at ≤ b.updated_at)
      (runningTasks db)).take (clampNat 1 5000 limit)).map (fun t => t.task_id))
    db 0 hu hnd hex
  have hreq : requeue_running_tasks db limit now =
      (((List.insertionSort (fun a b => a.updated_at ≤ b.updated_at)
        (runningTasks db)).take (clampNat 1 5000 limit)).map
        (fun t => t.task_id)).foldl (requeueOne now) (db, 0) := rfl
  rw [hreq, hfold.1, hlen]
  simp

/-- The scan of a lane holding at least one queued row returns a row. -/
theorem selectFold_some_acc : ∀ (l : List Task) (c : Task),
    ∃ c', l.foldl selectOldestStep (some c) = some c' := by
  intro l
  induction l with
  | nil => intro c; exact ⟨c, rfl⟩
  | cons x tl ih =>
    intro c
    rw [List.foldl_cons]
    by_cases hlt : x.queued_at < c.queued_at
    · rw [show selectOldestStep (some c) x = some x by
        simp [selectOldestStep, hlt]]
      exact ih x
    · rw [show selectOldestStep (some c) x = some c by
        simp [selectOldestStep, hlt]]
      exact ih c

/-- A lane with a queued row is claimable: `claim_next_task` returns a row. -/
theorem claim_next_task_some (db : QueueDB) (lane : String) (now : Nat)
    (hx : ∃ x ∈ db.tasks, x.status = .queued ∧ x.media_type = lane) :
    (claim_next_task db lane now).2 ≠ none := by
  obtain ⟨x, hxmem, hqs, hm⟩ := hx
  have hxf : x ∈ db.tasks.filter
      (fun t => decide (t.status = .queued ∧ t.media_type = lane)) :=
    List.mem_filter.mpr ⟨hxmem, by simp [hqs, hm]⟩
  obtain ⟨sel, hsel⟩ : ∃ sel, selectOldestQueued db.tasks lane = some sel := by
    unfold selectOldestQueued
    cases hfl : db.tasks.filter
        (fun t => decide (t.status = .queued ∧ t.media_type = lane)) with
    | nil =>
      rw [hfl] at hxf
      cases hxf
    | cons y ys =>
      rw [List.foldl_cons]
      exact selectFold_some_acc ys y
  obtain ⟨hmem, _, _, _⟩ := selectOldestQueued_spec hsel
  have hgmem : (if sel.task_id = sel.task_id then applyClaim now sel else sel) ∈
      db.tasks.map (fun t =>
        if t.task_id = sel.task_id then applyClaim now t else t) :=
    List.mem_map_of_mem _ hmem
  have hp : (fun t : Task => decide (t.task_id = sel.task_id))
      (if sel.task_id = sel.task_id then applyClaim now sel else sel) = true := by
    simp [applyClaim]
  have hsome : ((db.tasks.map (fun t =>
      if t.task_id = sel.task_id then applyClaim now t else t)).find?
        (fun t => decide (t.task_id = sel.task_id))).isSome := by
    rw [List.find?_isSome]
    exact ⟨_, hgmem, hp⟩
  obtain ⟨rt, hrt⟩ := Option.isSome_iff_exists.mp hsome
  simp [claim_next_task, hsel, hrt]

/-- A row not satisfying the update condition survives a conditional
`UPDATE` unchanged. -/
theorem mem_map_update_of_neg {l : List Task} {t : Task} (ht : t ∈ l)
    (f : Task → Task) (cond : Task → Prop) [DecidablePred cond]
    (hc : ¬ cond t) :
    t ∈ l.map (fun x => if cond x then f x else x) := by
  have hmm := List.mem_map_of_mem (fun x => if cond x then f x else x) ht
  simpa [if_neg hc] using hmm

/-- A row satisfying the update condition appears updated after a
conditional `UPDATE`. -/
theorem mem_map_update_of_pos {l : List Task} {t : Task} (ht : t ∈ l)
    (f : Task → Task) (cond : Task → Prop) [DecidablePred cond]
    (hc : cond t) :
    f t ∈ l.map (fun x => if cond x then f x else x) := by
  have hmm := List.mem_map_of_mem (fun x => if cond x then f x else x) ht
  simpa [if_pos hc] using hmm

/-! ## C5: crash recovery requeue -/

/-- **C5** — `requeue_running_tasks` resets up to the (clamped) limit of
running tasks back to queued with `started_at`/`finished_at`/`result`/
`error_message` cleared, appends one `requeued` event per reset task, and
returns the number reset; tasks not running are unaffected, and (when the
limit covers all running rows) every reset task is subsequently claimable
again by `claim_next_task`. -/
theorem requeue_running_tasks_correct (db : QueueDB) (limit : Int) (now : Nat)
    (hu : uniqueTaskIds db.tasks) :
    (requeue_running_tasks db limit now).2 =
      min (clampNat 1 5000 limit) (runningTasks db).length ∧
    (∃ evs, (requeue_running_tasks db limit now).1.events = db.events ++ evs ∧
      evs.length = (requeue_running_tasks db limit now).2 ∧
      ∀ e ∈ evs, e.event_type = "requeued" ∧ e.status = .queued) ∧
    (∀ t ∈ db.tasks, t.status ≠ .running →
      t ∈ (requeue_running_tasks db limit now).1.tasks) ∧
    ((runningTasks db).length ≤ clampNat 1 5000 limit →
      ∀ t ∈ db.tasks, t.status = .running →
        resetTask now t ∈ (requeue_running_tasks db limit now).1.tasks ∧
        (resetTask now t).status = .queued ∧
        (resetTask now t).started_at = none ∧
        (resetTask now t).finished_at = none ∧
        (resetTask now t).result_json = none ∧
        (resetTask now t).error_message = none ∧
        ∀ now2, (claim_next_task (requeue_running_tasks db limit now).1
          t.media_type now2).2 ≠ none) := by
  obtain ⟨hnd, hex, hlen, hcover⟩ :=
    requeue_selected_facts db (clampNat 1 5000 limit) hu
  have hfold := requeue_fold_spec now
    (((List.insertionSort (fun a b => a.updated_at ≤ b.updated_at)
      (runningTasks db)).take (clampNat 1 5000 limit)).map (fun t => t.task_id))
    db 0 hu hnd hex
  have hreq : requeue_running_tasks db limit now =
      (((List.insertionSort (fun a b => a.updated_at ≤ b.updated_at)
        (runningTasks db)).take (clampNat 1 5000 limit)).map
        (fun t => t.task_id)).foldl (requeueOne now) (db, 0) := rfl
  have hcnt : (requeue_running_tasks db limit now).2 =
      min (clampNat 1 5000 limit) (runningTasks db).length :=
    requeue_count_eq db limit now hu
  refine ⟨hcnt, ?_, ?_, ?_⟩
  · obtain ⟨evs, hevs, hlen', hall⟩ := hfold.2.2.1
    refine ⟨evs, ?_, ?_, hall⟩
    · rw [hreq]
      exact hevs
    · rw [hreq, hfold.1] at hcnt ⊢
      rw [hlen']
      omega
  · intro t ht hne
    rw [hreq, hfold.2.1]
    exact mem_map_update_of_neg ht _ _ (fun hc => hne hc.2)
  · intro hle t ht hrun
    have htidmem : t.task_id ∈ ((List.insertionSort
        (fun a b => a.updated_at ≤ b.updated_at)
        (runningTasks db)).take (clampNat 1 5000 limit)).map
        (fun t => t.task_id) :=
      hcover hle t (List.mem_filter.mpr ⟨ht, by simp [hrun]⟩)
    have hmem : resetTask now t ∈ (requeue_running_tasks db limit now).1.tasks := by
      rw [hreq, hfold.2.1]
      exact mem_map_update_of_pos ht _ _ ⟨htidmem, hrun⟩
    refine ⟨hmem, rfl, rfl, rfl, rfl, rfl, ?_⟩
    intro now2
    exact claim_next_task_some _ _ _ ⟨resetTask now t, hmem, rfl, rfl⟩

/-- Witness for C5: requeueing the scenario database (one running task)
resets it, records one requeued event, and lets it be claimed again. -/
theorem requeue_running_tasks_correct_witness :
    (requeue_running_tasks exDB2 1000 5).2 =
      min (clampNat 1 5000 1000) (runningTasks exDB2).length ∧
    (∀ t ∈ exDB2.tasks, t.status = Status.running →
      resetTask 5 t ∈ (requeue_running_tasks exDB2 1000 5).1.tasks) := by
  have h := requeue_running_tasks_correct exDB2 1000 5 (by decide)
  refine ⟨h.1, ?_⟩
  intro t ht hrun
  exact (h.2.2.2 (by decide) t ht hrun).1

/-! ## C10: requeue limit clamping -/

/-- **C10** — `requeue_running_tasks` clamps its limit into `[1, 5000]`: even
a call with `limit ≤ 0` can still requeue (exactly) one running task, and no
call ever requeues more than 5000 tasks. -/
theorem requeue_limit_clamped (db : QueueDB) (limit : Int) (now : Nat) :
    1 ≤ clampNat 1 5000 limit ∧ clampNat 1 5000 limit ≤ 5000 ∧
    (requeue_running_tasks db limit now).2 ≤ 5000 ∧
    (limit ≤ 0 → clampNat 1 5000 limit = 1) ∧
    (limit ≤ 0 → uniqueTaskIds db.tasks → runningTasks db ≠ [] →
      (requeue_running_tasks db limit now).2 = 1) := by
  have hlo : 1 ≤ clampNat 1 5000 limit := by unfold clampNat; omega
  have hhi : clampNat 1 5000 limit ≤ 5000 := by unfold clampNat; omega
  refine ⟨hlo, hhi, ?_, ?_, ?_⟩
  · have hreq : requeue_running_tasks db limit now =
        (((List.insertionSort (fun a b => a.updated_at ≤ b.updated_at)
          (runningTasks db)).take (clampNat 1 5000 limit)).map
          (fun t => t.task_id)).foldl (requeueOne now) (db, 0) := rfl
    have hcle := requeue_fold_count_le now
      (((List.insertionSort (fun a b => a.updated_at ≤ b.updated_at)
        (runningTasks db)).take (clampNat 1 5000 limit)).map
        (fun t => t.task_id)) (db, 0)
    have hlen : (((List.insertionSort (fun a b => a.updated_at ≤ b.updated_at)
        (runningTasks db)).take (clampNat 1 5000 limit)).map
        (fun t => t.task_id)).length ≤ clampNat 1 5000 limit := by
      rw [List.length_map, List.length_take]
      exact Nat.min_le_left _ _
    rw [hreq]
    omega
  · intro hle
    unfold clampNat
    omega
  · intro hle hu hne
    have hone : clampNat 1 5000 limit = 1 := by unfold clampNat; omega
    rw [requeue_count_eq db limit now hu, hone]
    have hpos : 0 < (runningTasks db).length := List.length_pos.mpr hne
    omega

/-- Witness for C10: a call with `limit = 0` on the scenario database (one
running task) still requeues exactly one task. -/
theorem requeue_limit_clamped_witness :
    (requeue_running_tasks exDB2 0 5).2 ≤ 5000 ∧
    (requeue_running_tasks exDB2 0 5).2 = 1 := by
  have h := requeue_limit_clamped exDB2 0 5
  exact ⟨h.2.2.1, h.2.2.2.2 (by decide) (by decide) (by decide)⟩

/-! ## C7: client wait semantics -/

/-- A polling observation carries a present, non-terminal task. -/
theorem obsPolling_elim {o : WaitObs} (h : obsPolling o = true) :
    ∃ t, o.task = some t ∧ ¬(t.status = .succeeded ∨ t.status = .failed) := by
  unfold obsPolling at h
  cases ho : o.task with
  | none =>
    rw [ho] at h
    cases h
  | some t =>
    rw [ho] at h
    refine ⟨t, rfl, ?_⟩
    simpa using h

/-- A loop iteration that sees a terminal task returns it at once. -/
theorem waitLoop_step_found (tmoO : Option Rat) (grace start : Rat)
    (offS : Option Rat) (o : WaitObs) (rest : List WaitObs) (task : Task)
    (htask : o.task = some task)
    (hterm : task.status = .succeeded ∨ task.status = .failed) :
    waitLoop tmoO grace start offS (o :: rest) = .found task := by
  simp [waitLoop, htask, hterm]

/-- A loop iteration over a non-terminal task past the deadline raises the
timeout. -/
theorem waitLoop_step_timeout (tmo grace start : Rat) (offS : Option Rat)
    (o : WaitObs) (rest : List WaitObs) (task : Task)
    (htask : o.task = some task)
    (hst : ¬(task.status = .succeeded ∨ task.status = .failed))
    (htmo : tmo ≤ o.now - start) :
    waitLoop (some tmo) grace start offS (o :: rest) = .timedOut := by
  simp [waitLoop, htask, hst, htmo]

/-- A loop iteration over a present non-terminal task before the deadline
proceeds by the lease check exactly as the source does. -/
theorem waitLoop_step_poll (tmo grace start : Rat) (offS : Option Rat)
    (o : WaitObs) (rest : List WaitObs) (task : Task)
    (htask : o.task = some task)
    (hst : ¬(task.status = .succeeded ∨ task.status = .failed))
    (htmo : ¬(tmo ≤ o.now - start)) :
    waitLoop (some tmo) grace start offS (o :: rest) =
      if o.online then waitLoop (some tmo) grace start none rest
      else
        match offS with
        | none => waitLoop (some tmo) grace start (some o.now) rest
        | some t0 =>
          if grace ≤ o.now - t0 then .workerOffline
          else waitLoop (some tmo) grace start (some t0) rest := by
  simp [waitLoop, htask, hst, htmo]

/-- Online, in-time, non-terminal observations are skipped transparently
(and keep the offline tracker clear). -/
theorem waitLoop_skip (tmo grace start : Rat) :
    ∀ (pre rest : List WaitObs),
      (∀ q ∈ pre, obsPolling q = true ∧ q.now - start < tmo ∧
        q.online = true) →
      waitLoop (some tmo) grace start none (pre ++ rest) =
        waitLoop (some tmo) grace start none rest := by
  intro pre
  induction pre with
  | nil => intro rest _; rfl
  | cons o pre ih =>
    intro rest hall
    have ho := hall o (List.mem_cons_self o pre)
    obtain ⟨task, htask, hst⟩ := obsPolling_elim ho.1
    have hstep := waitLoop_step_poll tmo grace start none o (pre ++ rest) task
      htask hst (not_le.mpr ho.2.1)
    rw [List.cons_append, hstep, if_pos ho.2.2]
    exact ih rest (fun q hq => hall q (List.mem_cons_of_mem o hq))

/-- With every observation present, non-terminal and online, hitting the
deadline at any observation yields the timeout outcome. -/
theorem waitLoop_timeout (tmo grace start : Rat) :
    ∀ obs : List WaitObs,
      (∀ q ∈ obs, obsPolling q = true ∧ q.online = true) →
      (∃ q ∈ obs, tmo ≤ q.now - start) →
      waitLoop (some tmo) grace start none obs = .timedOut := by
  intro obs
  induction obs with
  | nil =>
    rintro _ ⟨q, hq, _⟩
    cases hq
  | cons o tl ih =>
    intro hall hex
    have ho := hall o (List.mem_cons_self o tl)
    obtain ⟨task, htask, hst⟩ := obsPolling_elim ho.1
    by_cases htmo : tmo ≤ o.now - start
    · exact waitLoop_step_timeout tmo grace start none o tl task htask hst htmo
    · have hstep := waitLoop_step_poll tmo grace start none o tl task htask hst
        htmo
      rw [hstep, if_pos ho.2]
      apply ih (fun q hq => hall q (List.mem_cons_of_mem o hq))
      rcases hex with ⟨q, hq, hle⟩
      rcases List.mem_cons.mp hq with rfl | hq'
      · exact absurd hle htmo
      · exact ⟨q, hq', hle⟩

/-- With the lease continuously absent and the deadline never hit, the loop
raises the worker-offline outcome once an observation lies `grace` past the
first offline observation time `t0`. -/
theorem waitLoop_offline (tmo grace start : Rat) :
    ∀ (obs : List WaitObs) (t0 : Rat),
      (∀ q ∈ obs, obsPolling q = true ∧ q.now - start < tmo ∧
        q.online = false) →
      (∃ q ∈ obs, grace ≤ q.now - t0) →
      waitLoop (some tmo) grace start (some t0) obs = .workerOffline := by
  intro obs
  induction obs with
  | nil =>
    rintro t0 _ ⟨q, hq, _⟩
    cases hq
  | cons o tl ih =>
    intro t0 hall hex
    have ho := hall o (List.mem_cons_self o tl)
    obtain ⟨task, htask, hst⟩ := obsPolling_elim ho.1
    have hstep := waitLoop_step_poll tmo grace start (some t0) o tl task htask
      hst (not_le.mpr ho.2.1)
    rw [hstep]
    have honline : o.online = false := ho.2.2
    rw [honline]
    simp only [Bool.false_eq_true, if_false]
    by_cases hg : grace ≤ o.now - t0
    · rw [if_pos hg]
    · rw [if_neg hg]
      apply ih t0 (fun q hq => hall q (List.mem_cons_of_mem o hq))
      rcases hex with ⟨q, hq, hle⟩
      rcases List.mem_cons.mp hq with rfl | hq'
      · exact absurd hle hg
      · exact ⟨q, hq', hle⟩

/-- **C7** — `wait_for_task` returns the task row as soon as a poll sees a
terminal status; over any run of present, non-terminal, online polls it
raises the timeout once a poll falls `max(0.1, timeout)` past the start; and,
tracked independently of the timeout, over any run of present, non-terminal
polls with the lease continuously absent and every poll still inside the
timeout window, it raises the distinct worker-offline error once a poll lies
`max(0.1, grace)` past the first offline poll. -/
theorem wait_for_task_correct (tmo grace start : Rat) :
    (∀ (pre rest : List WaitObs) (o : WaitObs) (task : Task),
      (∀ q ∈ pre, obsPolling q = true ∧
        q.now - start < ratMax (1/10) tmo ∧ q.online = true) →
      o.task = some task →
      (task.status = .succeeded ∨ task.status = .failed) →
      wait_for_task (some tmo) grace start (pre ++ o :: rest) = .found task) ∧
    (∀ obs : List WaitObs,
      (∀ q ∈ obs, obsPolling q = true ∧ q.online = true) →
      (∃ q ∈ obs, ratMax (1/10) tmo ≤ q.now - start) →
      wait_for_task (some tmo) grace start obs = .timedOut) ∧
    (∀ (o₀ : WaitObs) (rest : List WaitObs),
      (∀ q ∈ o₀ :: rest, obsPolling q = true ∧
        q.now - start < ratMax (1/10) tmo ∧ q.online = false) →
      (∃ q ∈ rest, ratMax (1/10) grace ≤ q.now - o₀.now) →
      wait_for_task (some tmo) grace start (o₀ :: rest) = .workerOffline) := by
  have hwf : ∀ obs, wait_for_task (some tmo) grace start obs =
      waitLoop (some (ratMax (1/10) tmo)) (ratMax (1/10) grace) start none
        obs := by
    intro obs
    rfl
  refine ⟨?_, ?_, ?_⟩
  · intro pre rest o task hpre htask hterm
    rw [hwf, waitLoop_skip _ _ _ pre (o :: rest) hpre]
    exact waitLoop_step_found _ _ _ _ o rest task htask hterm
  · intro obs hall hex
    rw [hwf]
    exact waitLoop_timeout _ _ _ obs hall hex
  · intro o₀ rest hall hex
    rw [hwf]
    have ho := hall o₀ (List.mem_cons_self o₀ rest)
    obtain ⟨task, htask, hst⟩ := obsPolling_elim ho.1
    have hstep := waitLoop_step_poll (ratMax (1/10) tmo) (ratMax (1/10) grace)
      start none o₀ rest task htask hst (not_le.mpr ho.2.1)
    rw [hstep]
    have honline : o₀.online = false := ho.2.2
    rw [honline]
    simp only [Bool.false_eq_true, if_false]
    exact waitLoop_offline _ _ _ rest o₀.now
      (fun q hq => hall q (List.mem_cons_of_mem o₀ hq)) hex

/-- Witness for C7: a terminal poll returns at once; a late poll with the
worker online times out; two offline polls 2s apart (grace 1s) raise the
offline error before the 5s timeout. -/
theorem wait_for_task_correct_witness :
    wait_for_task (some 5) 1 0
      [⟨some (applySucceeded none 0 exTask1), true, 0⟩] =
      .found (applySucceeded none 0 exTask1) ∧
    wait_for_task (some 5) 1 0 [⟨some exTask1, true, 10⟩] = .timedOut ∧
    wait_for_task (some 5) 1 0
      [⟨some exTask1, false, 0⟩, ⟨some exTask1, false, 2⟩] =
      .workerOffline := by
  have h := wait_for_task_correct 5 1 0
  refine ⟨?_, ?_, ?_⟩
  · exact h.1 [] [] ⟨some (applySucceeded none 0 exTask1), true, 0⟩ _
      (fun q hq => absurd hq (List.not_mem_nil q)) rfl (Or.inl rfl)
  · apply h.2.1
    · intro q hq
      have hq' : q = ⟨some exTask1, true, 10⟩ := List.mem_singleton.mp hq
      subst hq'
      exact ⟨by decide, rfl⟩
    · refine ⟨⟨some exTask1, true, 10⟩, List.mem_singleton.mpr rfl, ?_⟩
      show ratMax (1/10) 5 ≤ 10 - 0
      norm_num [ratMax]
  · apply h.2.2
    · intro q hq
      rcases List.mem_cons.mp hq with rfl | hq'
      · refine ⟨by decide, ?_, rfl⟩
        show (0 : Rat) - 0 < ratMax (1/10) 5
        norm_num [ratMax]
      · have hq'' : q = ⟨some exTask1, false, 2⟩ := List.mem_singleton.mp hq'
        subst hq''
        refine ⟨by decide, ?_, rfl⟩
        show (2 : Rat) - 0 < ratMax (1/10) 5
        norm_num [ratMax]
    · refine ⟨⟨some exTask1, false, 2⟩, List.mem_singleton.mpr rfl, ?_⟩
      show ratMax (1/10) 1 ≤ 2 - 0
      norm_num [ratMax]

/-! ## C8: result/error blob invariant -/

/-- The original C8 is false on the code: `mark_task_failed` does not clear
`result_json`.  Starting from the reachable state where `t1` was marked
succeeded with a result (a state satisfying the invariant), marking it failed
leaves a `failed` row whose result is still set. -/
theorem result_only_on_success_counterexample :
    resultOnlyOnSuccess exDB2S ∧
    ¬ resultOnlyOnSuccess (mark_task_failed exDB2S "t1" "boom" 3).1 := by
  constructor
  · decide
  · decide

/-- Tasks-table outcomes of `enqueue_task`: unchanged, or one appended row. -/
theorem enqueue_tasks_cases (db : QueueDB) (tid p ty m r pj : String)
    (sf : Option String) (src : String) (now : Nat) :
    (enqueue_task db tid p ty m r pj sf src now).1.tasks = db.tasks ∨
    (enqueue_task db tid p ty m r pj sf src now).1.tasks =
      db.tasks ++ [newQueuedTask tid p ty m r pj sf src now] := by
  unfold enqueue_task
  dsimp only
  split
  · split
    · left; rfl
    · left; rfl
  · right; rfl

/-- Tasks-table outcomes of `claim_next_task`: unchanged, or the selected
row's id updated via `applyClaim`. -/
theorem claim_tasks_cases (db : QueueDB) (lane : String) (now : Nat) :
    (claim_next_task db lane now).1.tasks = db.tasks ∨
    ∃ sel, selectOldestQueued db.tasks lane = some sel ∧
      (claim_next_task db lane now).1.tasks =
        db.tasks.map (fun t =>
          if t.task_id = sel.task_id then applyClaim now t else t) := by
  cases hsel : selectOldestQueued db.tasks lane with
  | none =>
    left
    simp [claim_next_task, hsel]
  | some sel =>
    right
    refine ⟨sel, rfl, ?_⟩
    simp only [claim_next_task, hsel]
    split
    · rfl
    · rfl

/-- Tasks-table outcomes of `mark_task_succeeded`. -/
theorem mark_succeeded_tasks_cases (db : QueueDB) (tid : String)
    (res : Option String) (now : Nat) :
    (mark_task_succeeded db tid res now).1.tasks = db.tasks ∨
    (mark_task_succeeded db tid res now).1.tasks =
      db.tasks.map (fun t =>
        if t.task_id = tid then applySucceeded res now t else t) := by
  unfold mark_task_succeeded
  dsimp only
  split
  · split
    · right; rfl
    · right; rfl
  · left; rfl

/-- Tasks-table outcomes of `mark_task_failed`. -/
theorem mark_failed_tasks_cases (db : QueueDB) (tid msg : String) (now : Nat) :
    (mark_task_failed db tid msg now).1.tasks = db.tasks ∨
    (mark_task_failed db tid msg now).1.tasks =
      db.tasks.map (fun t =>
        if t.task_id = tid then applyFailed msg now t else t) := by
  unfold mark_task_failed
  dsimp only
  split
  · split
    · right; rfl
    · right; rfl
  · left; rfl

/-- **C8 (amended)** — every queue operation preserves the invariant that
`result` is set only on a terminal row (succeeded, or failed when
`mark_task_failed` overwrote a previously succeeded row without clearing the
stored result) and `error_message` is set only on a failed row.  The original
per-status claim — a failed row always has a null result — does not survive
`mark_task_failed`. -/
theorem result_error_invariant_preserved (db : QueueDB)
    (hu : uniqueTaskIds db.tasks) (hinv : resultOnlyOnTerminal db) :
    (∀ tid p ty m r pj sf src now, resultOnlyOnTerminal
      (enqueue_task db tid p ty m r pj sf src now).1) ∧
    (∀ lane now, resultOnlyOnTerminal (claim_next_task db lane now).1) ∧
    (∀ limit now, resultOnlyOnTerminal (requeue_running_tasks db limit now).1) ∧
    (∀ tid res now, resultOnlyOnTerminal
      (mark_task_succeeded db tid res now).1) ∧
    (∀ tid msg now, resultOnlyOnTerminal (mark_task_failed db tid msg now).1) := by
  unfold resultOnlyOnTerminal at hinv
  refine ⟨?_, ?_, ?_, ?_, ?_⟩
  · intro tid p ty m r pj sf src now
    unfold resultOnlyOnTerminal
    intro t ht
    rcases enqueue_tasks_cases db tid p ty m r pj sf src now with hc | hc
    · rw [hc] at ht
      exact hinv t ht
    · rw [hc] at ht
      rcases List.mem_append.mp ht with h1 | h2
      · exact hinv t h1
      · have he : t = newQueuedTask tid p ty m r pj sf src now :=
          List.mem_singleton.mp h2
        subst he
        exact ⟨fun hres => absurd rfl hres, fun herr => absurd rfl herr⟩
  · intro lane now
    unfold resultOnlyOnTerminal
    intro t ht
    rcases claim_tasks_cases db lane now with hc | ⟨sel, hsel, hc⟩
    · rw [hc] at ht
      exact hinv t ht
    · rw [hc] at ht
      obtain ⟨x, hx, hxt⟩ := List.mem_map.mp ht
      by_cases hid : x.task_id = sel.task_id
      · obtain ⟨hmem, hqs, _, _⟩ := selectOldestQueued_spec hsel
        have hxsel : x = sel := taskId_inj hu hx hmem hid
        have hresnone : x.result_json = none := by
          by_cases hres : x.result_json = none
          · exact hres
          · rcases (hinv x hx).1 hres with h | h <;>
              rw [hxsel, hqs] at h <;> cases h
        have herrnone : x.error_message = none := by
          by_cases herr : x.error_message = none
          · exact herr
          · have h := (hinv x hx).2 herr
            rw [hxsel, hqs] at h
            cases h
        rw [← hxt, if_pos hid]
        simp [applyClaim, hresnone, herrnone]
      · rw [← hxt, if_neg hid]
        exact hinv x hx
  · intro limit now
    unfold resultOnlyOnTerminal
    intro t ht
    obtain ⟨hnd, hex, _, _⟩ :=
      requeue_selected_facts db (clampNat 1 5000 limit) hu
    have hfold := requeue_fold_spec now
      (((List.insertionSort (fun a b => a.updated_at ≤ b.updated_at)
        (runningTasks db)).take (clampNat 1 5000 limit)).map
        (fun t => t.task_id)) db 0 hu hnd hex
    have hreq : requeue_running_tasks db limit now =
        (((List.insertionSort (fun a b => a.updated_at ≤ b.updated_at)
          (runningTasks db)).take (clampNat 1 5000 limit)).map
          (fun t => t.task_id)).foldl (requeueOne now) (db, 0) := rfl
    rw [hreq, hfold.2.1] at ht
    obtain ⟨x, hx, hxt⟩ := List.mem_map.mp ht
    by_cases hcond : x.task_id ∈ ((List.insertionSort
        (fun a b => a.updated_at ≤ b.updated_at)
        (runningTasks db)).take (clampNat 1 5000 limit)).map
        (fun t => t.task_id) ∧ x.status = .running
    · rw [← hxt, if_pos hcond]
      simp [resetTask]
    · rw [← hxt, if_neg hcond]
      exact hinv x hx
  · intro tid res now
    unfold resultOnlyOnTerminal
    intro t ht
    rcases mark_succeeded_tasks_cases db tid res now with hc | hc
    · rw [hc] at ht
      exact hinv t ht
    · rw [hc] at ht
      obtain ⟨x, hx, hxt⟩ := List.mem_map.mp ht
      by_cases hid : x.task_id = tid
      · rw [← hxt, if_pos hid]
        simp [applySucceeded]
      · rw [← hxt, if_neg hid]
        exact hinv x hx
  · intro tid msg now
    unfold resultOnlyOnTerminal
    intro t ht
    rcases mark_failed_tasks_cases db tid msg now with hc | hc
    · rw [hc] at ht
      exact hinv t ht
    · rw [hc] at ht
      obtain ⟨x, hx, hxt⟩ := List.mem_map.mp ht
      by_cases hid : x.task_id = tid
      · rw [← hxt, if_pos hid]
        simp [applyFailed]
      · rw [← hxt, if_neg hid]
        exact hinv x hx

/-- Witness for C8 (amended): the weakened invariant survives claiming in a
one-task database and survives marking the succeeded scenario task failed. -/
theorem result_error_invariant_preserved_witness :
    resultOnlyOnTerminal (claim_next_task exDB1 "image" 1).1 ∧
    resultOnlyOnTerminal (mark_task_failed exDB2S "t1" "boom" 3).1 := by
  have h1 := result_error_invariant_preserved exDB1 (by decide) (by decide)
  have h2 := result_error_invariant_preserved exDB2S (by decide) (by decide)
  exact ⟨h1.2.1 "image" 1, h2.2.2.2.2 "t1" "boom" 3⟩

/-! ## C9: SSE subscribe semantics -/

/-- The original C9 is false on the code: with resume cursor 0 against the
scenario database (latest id 3), the snapshot carries chosen cursor
`max 0 3 = 3`, yet the loop replays events 1–3 — events whose ids are not
strictly greater than the chosen cursor (it replays from the supplied
cursor instead). -/
theorem sse_first_batch_counterexample :
    sse_snapshot_cursor exDB3 none (some 0) = 3 ∧
    sse_first_batch exDB3 none (some 0) ≠
      sse_first_batch_claimed exDB3 none (some 0) ∧
    (sse_first_batch exDB3 none (some 0)).any
      (fun e => decide (e.id ≤ sse_snapshot_cursor exDB3 none (some 0))) =
      true := by
  refine ⟨by decide, by decide, by decide⟩

/-- **C9 (amended)** — on subscribe the snapshot event carries the latest
event id (no resume cursor supplied) or the max of the supplied cursor and
the latest id (resume supplied); the subsequent loop then emits a `task`
event for each event with id strictly greater than the *supplied* resume
cursor when one was given (not the snapshot cursor), and strictly greater
than the snapshot cursor otherwise, in ascending id order, advancing the
cursor to each emitted event's id. -/
theorem sse_stream_correct (db : QueueDB) (proj : Option String)
    (resume : Option Nat)
    (hsorted : db.events.Pairwise (fun e₁ e₂ => e₁.id < e₂.id)) :
    sse_snapshot_cursor db proj none = get_latest_event_id db proj ∧
    (∀ c, sse_snapshot_cursor db proj (some c) =
      max c (get_latest_event_id db proj)) ∧
    sse_loop_cursor db proj none = sse_snapshot_cursor db proj none ∧
    (∀ c, sse_loop_cursor db proj (some c) = c) ∧
    (∀ e ∈ sse_first_batch db proj resume,
      sse_loop_cursor db proj resume < e.id ∧ e ∈ db.events ∧
      ∀ p, proj = some p → e.project_name = p) ∧
    (sse_first_batch db proj resume).Pairwise
      (fun e₁ e₂ => e₁.id < e₂.id) := by
  refine ⟨rfl, fun c => rfl, rfl, fun c => rfl, ?_, ?_⟩
  · intro e he
    have he' : e ∈ db.events.filter
        (eventSinceMatch (sse_loop_cursor db proj resume) proj) :=
      List.take_subset _ _ he
    have hf := List.mem_filter.mp he'
    have hb := hf.2
    unfold eventSinceMatch at hb
    simp only [Bool.and_eq_true] at hb
    refine ⟨of_decide_eq_true hb.1, hf.1, ?_⟩
    intro p hp
    subst hp
    simpa using hb.2
  · exact List.Pairwise.sublist
      ((List.take_sublist _ _).trans (List.filter_sublist _)) hsorted

/-- Witness for C9 (amended) at the scenario database with resume cursor 0. -/
theorem sse_stream_correct_witness :
    sse_snapshot_cursor exDB3 none (some 0) =
      max 0 (get_latest_event_id exDB3 none) ∧
    (sse_first_batch exDB3 none (some 0)).Pairwise
      (fun e₁ e₂ => e₁.id < e₂.id) := by
  have h := sse_stream_correct exDB3 none (some 0) (by decide)
  exact ⟨h.2.1 0, h.2.2.2.2.2⟩

/-- The original C3 is false at `limit = 0`: the code clamps the limit with
`max(1, min(1000, limit))`, so a call with limit 0 still returns one event
instead of being capped at 0. -/
theorem get_events_since_limit_counterexample :
    (get_events_since exDB3 0 none 0).length = 1 ∧
    ¬((get_events_since exDB3 0 none 0).length ≤ 0) := by
  constructor
  · decide
  · decide

/-- The original C5 is false at `limit = 0`: the code clamps the limit with
`max(1, min(5000, limit))`, so a call with limit 0 on a database with one
running task still resets one task instead of at most 0. -/
theorem requeue_limit_zero_counterexample :
    (requeue_running_tasks exDB2 0 5).2 = 1 ∧
    ¬((requeue_running_tasks exDB2 0 5).2 ≤ 0) := by
  constructor
  · decide
  · decide

/-- The original C7 is false at `timeout = 1/100`: the code clamps the
timeout with `max(0.1, timeout)`, so a poll 1/20 s past the start — beyond
the requested timeout but inside the clamped one — does not raise the
timeout; the loop keeps polling (`pending`). -/
theorem wait_for_task_clamp_counterexample :
    wait_for_task (some (1/100)) 1 0 [⟨some exTask1, true, 1/20⟩] =
      .pending ∧ ((1/100 : Rat) ≤ 1/20 - 0) := by
  constructor
  · have hstep := waitLoop_step_poll (ratMax (1/10) (1/100)) (ratMax (1/10) 1)
      0 none ⟨some exTask1, true, 1/20⟩ [] exTask1 rfl (by decide)
      (by norm_num [ratMax])
    show waitLoop (some (ratMax (1/10) (1/100))) (ratMax (1/10) 1) 0 none
      [⟨some exTask1, true, 1/20⟩] = WaitResult.pending
    rw [show ([⟨some exTask1, true, 1/20⟩] : List WaitObs) =
      ⟨some exTask1, true, 1/20⟩ :: [] from rfl, hstep]
    rfl
  · norm_num

end GenQueue
